import Mathlib

/-!
Shallow embedding of the OptaFly graph engine (crate `optacore_struct`, plus the
configuration-validation layer of `optacore_jni`), written definition-by-definition
from the Rust source.

Embedding conventions:
* Rust `f32` values (edge weights, severities, coordinates) are embedded as `ℚ`.
  Every concrete number the verified claims touch is a small rational that `f32`
  represents exactly, and the source's arithmetic on them (`+`, `*`, `/`, `max`,
  `clamp`) is mapped to the corresponding exact operation.
* Burn tensors of shape `[n, n]` are embedded as row-major `List (List ℚ)`;
  tensors of shape `[n, 2]` as `List (ℚ × ℚ)`.
* `std::collections::HashMap` is embedded as an association list with
  replace-or-append insertion, so that key membership and the stored values
  agree with the map; theorems about it only use order-insensitive facts
  (membership, lookup), since Rust's iteration order is arbitrary.
* `compute_forces` mixes `sqrt` into its arithmetic, which has no exact rational
  embedding; the optimizer is therefore parameterised by the force field it
  uses, and the theorems hold for every force field (so in particular for the
  one the Rust code computes).  Likewise the random initial positions are an
  explicit parameter.
-/

namespace OptaFly

/-- `model.rs` — `enum NodeType`. -/
inductive NodeType
  | System
  | Container
  | Component
  | Person
  deriving DecidableEq, Repr

/-- `model.rs` — `struct OptaNode` (the tensor-valued position is embedded as an
optional pair of rationals). -/
structure OptaNode where
  id : String
  name : String
  node_type : NodeType
  description : Option String := none
  technology : Option String := none
  position : Option (ℚ × ℚ) := none
  deriving DecidableEq, Repr

/-- `model.rs` — `OptaNode::new`. -/
def OptaNode.new (id name : String) (node_type : NodeType) : OptaNode :=
  { id := id, name := name, node_type := node_type }

/-- `model.rs` — `OptaNode::with_technology`. -/
def OptaNode.with_technology (n : OptaNode) (technology : String) : OptaNode :=
  { n with technology := some technology }

/-- `model.rs` — `OptaNode::with_description`. -/
def OptaNode.with_description (n : OptaNode) (description : String) : OptaNode :=
  { n with description := some description }

/-- `model.rs` — `OptaNode::set_position`. -/
def OptaNode.set_position (n : OptaNode) (x y : ℚ) : OptaNode :=
  { n with position := some (x, y) }

/-- `model.rs` — `struct OptaEdge`. -/
structure OptaEdge where
  «from» : String
  «to» : String
  label : Option String := none
  weight : ℚ := 1
  deriving DecidableEq, Repr

/-- `model.rs` — `OptaEdge::new` (weight defaults to 1.0). -/
def OptaEdge.new (f t : String) : OptaEdge :=
  { «from» := f, «to» := t }

/-- `model.rs` — `OptaEdge::with_label`. -/
def OptaEdge.with_label (e : OptaEdge) (label : String) : OptaEdge :=
  { e with label := some label }

/-- `model.rs` — `OptaEdge::with_weight`. -/
def OptaEdge.with_weight (e : OptaEdge) (w : ℚ) : OptaEdge :=
  { e with weight := w }

/-- `model.rs` — `struct OptaModel`. -/
structure OptaModel where
  nodes : List OptaNode
  edges : List OptaEdge
  adjacency_matrix : Option (List (List ℚ))
  deriving DecidableEq, Repr

/-- `model.rs` — `OptaModel::new`. -/
def OptaModel.new : OptaModel :=
  { nodes := [], edges := [], adjacency_matrix := none }

/-- `model.rs` — `OptaModel::add_node` (appends and invalidates the matrix). -/
def OptaModel.add_node (m : OptaModel) (n : OptaNode) : OptaModel :=
  { m with nodes := m.nodes ++ [n], adjacency_matrix := none }

/-- `model.rs` — `OptaModel::add_edge` (appends and invalidates the matrix). -/
def OptaModel.add_edge (m : OptaModel) (e : OptaEdge) : OptaModel :=
  { m with edges := m.edges ++ [e], adjacency_matrix := none }

/-- `model.rs` — `OptaModel::node_count`. -/
def OptaModel.node_count (m : OptaModel) : ℕ := m.nodes.length

/-- `model.rs` — `OptaModel::edge_count`. -/
def OptaModel.edge_count (m : OptaModel) : ℕ := m.edges.length

/-- `model.rs` — `OptaModel::find_node`: first node whose id matches. -/
def OptaModel.find_node (m : OptaModel) (id : String) : Option OptaNode :=
  m.nodes.find? (fun n => n.id = id)

/-- Association-list embedding of `HashMap` insertion: replace the value at an
existing key, else append the binding. -/
def hmInsert {α : Type} (m : List (String × α)) (k : String) (v : α) :
    List (String × α) :=
  match m with
  | [] => [(k, v)]
  | (k', v') :: rest =>
      if k' = k then (k, v) :: rest else (k', v') :: hmInsert rest k v

/-- Association-list embedding of `HashMap` lookup. -/
def hmGet {α : Type} (m : List (String × α)) (k : String) : Option α :=
  match m with
  | [] => none
  | (k', v) :: rest => if k' = k then some v else hmGet rest k

/-- `model.rs` `build_adjacency_matrix` — the `node_index_map` built by
collecting `(id, index)` pairs into a `HashMap`: a later pair with the same id
overwrites an earlier one, so a duplicated id resolves to its last index. -/
def node_index_map (nodes : List OptaNode) : List (String × ℕ) :=
  nodes.enum.foldl (fun m p => hmInsert m p.2.id p.1) []

/-- Row-major cell write into a `List (List ℚ)` matrix (`adjacency_data[i][j] = w`). -/
def setCell (mat : List (List ℚ)) (i j : ℕ) (w : ℚ) : List (List ℚ) :=
  mat.set i (((mat.get? i).getD []).set j w)

/-- Row-major cell read (out-of-range reads as 0, which never happens for the
indices produced by `node_index_map`). -/
def getCell (mat : List (List ℚ)) (i j : ℕ) : ℚ :=
  (((mat.get? i).getD []).get? j).getD 0

/-- `model.rs` `build_adjacency_matrix` — one edge's write into the matrix:
resolve both endpoints through the index map and store the weight, skipping
the edge when either endpoint resolves to no node. -/
def adjacency_write (idx : List (String × ℕ)) (acc : List (List ℚ))
    (e : OptaEdge) : List (List ℚ) :=
  match hmGet idx e.«from», hmGet idx e.«to» with
  | some from_idx, some to_idx => setCell acc from_idx to_idx e.weight
  | _, _ => acc

/-- `model.rs` — `OptaModel::build_adjacency_matrix`: absent for an empty model,
else an n×n matrix where each resolvable edge writes its weight at
`[from_idx][to_idx]` (later edges overwriting earlier ones); edges with an
unresolvable endpoint are skipped. -/
def OptaModel.build_adjacency_matrix (m : OptaModel) : OptaModel :=
  let node_count := m.nodes.length
  if node_count = 0 then { m with adjacency_matrix := none }
  else
    let idx := node_index_map m.nodes
    let adjacency_data := m.edges.foldl (adjacency_write idx)
      (List.replicate node_count (List.replicate node_count 0))
    { m with adjacency_matrix := some adjacency_data }

/-- `anti_patterns.rs` — `enum AntiPattern`. -/
inductive AntiPattern
  | Cycle (nodes : List String)
  | Bottleneck (node_id : String) (in_degree : ℕ) (severity : ℚ)
  | IsolatedComponent (node_id : String)
  | OverCoupling (node_id : String) (out_degree : ℕ) (severity : ℚ)
  deriving DecidableEq, Repr

/-- `anti_patterns.rs` — `struct AntiPatternConfig`. -/
structure AntiPatternConfig where
  bottleneck_threshold : ℕ
  over_coupling_threshold : ℕ
  detect_isolated : Bool
  deriving DecidableEq, Repr

/-- `anti_patterns.rs` — `impl Default for AntiPatternConfig`. -/
def AntiPatternConfig.default : AntiPatternConfig :=
  { bottleneck_threshold := 5, over_coupling_threshold := 7, detect_isolated := true }

/-- `anti_patterns.rs` `build_adjacency_map` — one edge's update:
`adjacency.entry(edge.from).or_insert_with(Vec::new).push(edge.to)`. -/
def adjacency_append (adj : List (String × List String)) (e : OptaEdge) :
    List (String × List String) :=
  match hmGet adj e.«from» with
  | some v => hmInsert adj e.«from» (v ++ [e.«to»])
  | none => hmInsert adj e.«from» [e.«to»]

/-- `anti_patterns.rs` — `build_adjacency_map`: every node id gets an (initially
empty) neighbour list, then each edge appends its target to its source's entry,
creating the entry if the source id is not a node (`entry().or_insert`). -/
def build_adjacency_map (m : OptaModel) : List (String × List String) :=
  let adjacency := m.nodes.foldl (fun adj n => hmInsert adj n.id ([] : List String)) []
  m.edges.foldl adjacency_append adjacency

/-- `anti_patterns.rs` — `enum Color` (the three-colour DFS scheme). -/
inductive Color
  | White
  | Gray
  | Black
  deriving DecidableEq, Repr

/-- Loop body of `reconstruct_cycle`'s `while` (fuelled: the Rust loop walks the
finite parent chain; `fuel` bounds the number of steps and is instantiated with
more steps than there are parent entries). -/
def reconstruct_go (parent : List (String × Option String)) :
    ℕ → String → String → List String → List String
  | 0, _, _, acc => acc
  | fuel + 1, cycle_start, current, acc =>
      if current = cycle_start then acc
      else
        let acc := acc ++ [current]
        match hmGet parent current with
        | some (some p) => reconstruct_go parent fuel cycle_start p acc
        | _ => acc

/-- `anti_patterns.rs` — `reconstruct_cycle`: start from the back-edge's target,
walk parent links from the back-edge's source, reverse at the end. -/
def reconstruct_cycle (cycle_start cycle_end : String)
    (parent : List (String × Option String)) : List String :=
  (reconstruct_go parent (parent.length + 1) cycle_start cycle_end [cycle_start]).reverse

/-- State threaded through the DFS: colour map, parent map. -/
abbrev DfsMaps := List (String × Color) × List (String × Option String)

/-- `anti_patterns.rs` — the `for neighbor in neighbors` loop of `dfs_visit`,
with its three cases: recurse into White neighbours (recording the parent
link; the recursive `dfs_visit` call is the `visit` parameter), return a
reconstructed cycle on a Gray neighbour (the back edge), skip Black or
unknown neighbours. An inner `Some` return propagates out at once. -/
def dfs_neighbors (visit : String → DfsMaps → DfsMaps × Option (List String))
    (node_id : String) :
    List String → DfsMaps → DfsMaps × Option (List String)
  | [], st => (st, none)
  | neighbor :: rest, st =>
      match hmGet st.1 neighbor with
      | some Color.White =>
          let st := (st.1, hmInsert st.2 neighbor (some node_id))
          match visit neighbor st with
          | (st, some cycle) => (st, some cycle)
          | (st, none) => dfs_neighbors visit node_id rest st
      | some Color.Gray =>
          (st, some (reconstruct_cycle neighbor node_id st.2))
      | _ => dfs_neighbors visit node_id rest st

/-- `anti_patterns.rs` — `dfs_visit` (fuelled; the recursion depth is bounded by
the number of White nodes, and callers pass fuel exceeding the node count).
Marks the node Gray, scans its neighbours, and marks it Black only when no
cycle was returned. -/
def dfs_visit (adjacency : List (String × List String)) :
    ℕ → String → DfsMaps → DfsMaps × Option (List String)
  | 0, _, st => (st, none)
  | fuel + 1, node_id, st =>
      let st := (hmInsert st.1 node_id Color.Gray, st.2)
      let neighbors := (hmGet adjacency node_id).getD []
      match dfs_neighbors (dfs_visit adjacency fuel) node_id neighbors st with
      | (st, some cycle) => (st, some cycle)
      | (st, none) => ((hmInsert st.1 node_id Color.Black, st.2), none)

/-- Body of `detect_cycles`' `for node in &model.nodes` loop: roots still
White start a DFS, and a returned cycle pushes one `Cycle` pattern. -/
def detect_cycles_visit (fuel : ℕ)
    (adjacency : List (String × List String))
    (acc : DfsMaps × List AntiPattern) (n : OptaNode) :
    DfsMaps × List AntiPattern :=
  if hmGet acc.1.1 n.id = some Color.White then
    match dfs_visit adjacency fuel n.id acc.1 with
    | (st, some cycle) => (st, acc.2 ++ [AntiPattern.Cycle cycle])
    | (st, none) => (st, acc.2)
  else acc

/-- `anti_patterns.rs` — `detect_cycles`: initialise every node White with no
parent, then for each node still White start a DFS; each DFS that returns a
cycle pushes one `Cycle` pattern, and the loop over roots continues either
way.  (The Rust function returns `Result` but never errs.) -/
def detect_cycles (m : OptaModel) (adjacency : List (String × List String)) :
    List AntiPattern :=
  let color := m.nodes.foldl (fun c n => hmInsert c n.id Color.White) []
  let parent := m.nodes.foldl
    (fun p n => hmInsert p n.id (none : Option String)) []
  let final := m.nodes.foldl
    (detect_cycles_visit (m.nodes.length + 1) adjacency)
    ((color, parent), [])
  final.2

/-- `anti_patterns.rs` `detect_bottlenecks` — one neighbour occurrence's
update: `*in_degree.entry(neighbor).or_insert(0) += 1`. -/
def in_degree_incr (m : List (String × ℕ)) (neighbor : String) :
    List (String × ℕ) :=
  match hmGet m neighbor with
  | some d => hmInsert m neighbor (d + 1)
  | none => hmInsert m neighbor 1

/-- `anti_patterns.rs` `detect_bottlenecks` — the `in_degree` map after both
loops: every adjacency key starts at 0, then every neighbour occurrence
increments. -/
def in_degree_map (adjacency : List (String × List String)) :
    List (String × ℕ) :=
  let in_degree := adjacency.foldl (fun m p => hmInsert m p.1 (0 : ℕ)) []
  adjacency.foldl (fun m p => p.2.foldl in_degree_incr m) in_degree

/-- `anti_patterns.rs` — `detect_bottlenecks`: in-degrees are initialised to 0
for every adjacency key, each neighbour occurrence increments (inserting a
fresh entry for targets that are not keys), then entries meeting the threshold
become `Bottleneck` patterns with severity `in_degree / max(threshold, 1)`. -/
def detect_bottlenecks (adjacency : List (String × List String))
    (threshold : ℕ) : List AntiPattern :=
  ((in_degree_map adjacency).filter (fun p => threshold ≤ p.2)).map
    (fun p => AntiPattern.Bottleneck p.1 p.2 ((p.2 : ℚ) / max (threshold : ℚ) 1))

/-- `anti_patterns.rs` — `detect_over_coupling`: adjacency entries whose
neighbour list meets the threshold become `OverCoupling` patterns with severity
`out_degree / max(threshold, 1)`. -/
def detect_over_coupling (adjacency : List (String × List String))
    (threshold : ℕ) : List AntiPattern :=
  (adjacency.filter (fun p => threshold ≤ p.2.length)).map
    (fun p =>
      AntiPattern.OverCoupling p.1 p.2.length
        ((p.2.length : ℚ) / max (threshold : ℚ) 1))

/-- `anti_patterns.rs` — `detect_isolated_components`: nodes with an empty (or
missing) neighbour list and no incoming occurrence anywhere. -/
def detect_isolated_components (m : OptaModel)
    (adjacency : List (String × List String)) : List AntiPattern :=
  let has_incoming := adjacency.foldl
    (fun s p => p.2.foldl (fun s nb => if nb ∈ s then s else s ++ [nb]) s)
    ([] : List String)
  (m.nodes.filter
      (fun node =>
        let has_outgoing :=
          ((hmGet adjacency node.id).map (fun l => !l.isEmpty)).getD false
        let has_incoming_edge := node.id ∈ has_incoming
        !has_outgoing && !has_incoming_edge)).map
    (fun node => AntiPattern.IsolatedComponent node.id)

/-- `anti_patterns.rs` — `detect_anti_patterns`: empty model reports nothing;
otherwise cycles, bottlenecks, over-coupling and (if enabled) isolated
components, in that order.  (The Rust function returns `Result` but never
errs.) -/
def detect_anti_patterns (m : OptaModel) (config : AntiPatternConfig) :
    List AntiPattern :=
  if m.node_count = 0 then []
  else
    let adjacency := build_adjacency_map m
    let patterns := detect_cycles m adjacency
    let patterns := patterns ++ detect_bottlenecks adjacency config.bottleneck_threshold
    let patterns :=
      patterns ++ detect_over_coupling adjacency config.over_coupling_threshold
    if config.detect_isolated then
      patterns ++ detect_isolated_components m adjacency
    else patterns

/-! ### Parser (`parser.rs`)

The Rust parser drives five hand-written regular expressions over the input
with `captures_iter`.  Each pattern is anchored at a line start (`(?m)^`), so a
pattern matches at most once per line and the matches arrive in textual order;
the embedding therefore scans the input line by line with a hand-rolled
matcher per pattern.  (`\s` is embedded as ASCII whitespace and `\w` as ASCII
alphanumeric-or-underscore; quoted strings are taken not to span lines.)
A match's capture groups are kept as `Option`s to mirror `cap.get(i)`. -/

/-- ASCII fragment of the regex class `\s`. -/
def isWSpaceChar (c : Char) : Bool :=
  c = ' ' || c = '\t' || c = '\n' || c = '\r' ||
    c = Char.ofNat 11 || c = Char.ofNat 12

/-- ASCII fragment of the regex class `\w`. -/
def isWordChar (c : Char) : Bool :=
  c.isAlphanum || c = '_'

/-- Capture groups of one regex match (`cap.get(1)`, `cap.get(2)`, `cap.get(3)`). -/
structure RegexCapture where
  g1 : Option String
  g2 : Option String
  g3 : Option String
  deriving DecidableEq, Repr

/-- Match a literal fragment of a pattern. -/
def lexLit : List Char → List Char → Option (List Char)
  | [], s => some s
  | _ :: _, [] => none
  | c :: cs, x :: xs => if x = c then lexLit cs xs else none

/-- Regex `\w+` (greedy; the following pattern pieces never backtrack into it
because `\w` is disjoint from whitespace, `-` and `"`). -/
def lexWord1 (s : List Char) : Option (String × List Char) :=
  let w := s.takeWhile isWordChar
  if w.isEmpty then none
  else some (String.mk w, s.drop w.length)

/-- Regex `\s+` (greedy; deterministic for the same disjointness reason). -/
def lexSpaces1 (s : List Char) : Option (List Char) :=
  match s with
  | [] => none
  | c :: _ => if isWSpaceChar c then some (s.dropWhile isWSpaceChar) else none

/-- Regex `"([^"]+)"`. -/
def lexQuoted (s : List Char) : Option (String × List Char) :=
  match s with
  | '"' :: rest =>
      let content := rest.takeWhile (fun c => c ≠ '"')
      if content.isEmpty then none
      else
        match rest.drop content.length with
        | '"' :: rest' => some (String.mk content, rest')
        | _ => none
  | _ => none

/-- One line against `^\s*<keyword>\s+(\w+)\s+"([^"]+)"` followed, when
`withTech` is set, by the optional group `(?:\s+"([^"]+)")?`. -/
def matchDecl (keyword : String) (withTech : Bool) (line : List Char) :
    Option RegexCapture :=
  match lexLit keyword.toList (line.dropWhile isWSpaceChar) with
  | none => none
  | some s =>
    match lexSpaces1 s with
    | none => none
    | some s =>
      match lexWord1 s with
      | none => none
      | some (id, s) =>
        match lexSpaces1 s with
        | none => none
        | some s =>
          match lexQuoted s with
          | none => none
          | some (name, s) =>
            let tech :=
              if withTech then
                match lexSpaces1 s with
                | none => none
                | some s => (lexQuoted s).map Prod.fst
              else none
            some ⟨some id, some name, tech⟩

/-- One line against `^\s*(\w+)\s*->\s*(\w+)(?:\s+"([^"]+)")?`. -/
def matchRelationship (line : List Char) : Option RegexCapture :=
  match lexWord1 (line.dropWhile isWSpaceChar) with
  | none => none
  | some (f, s) =>
    match lexLit "->".toList (s.dropWhile isWSpaceChar) with
    | none => none
    | some s =>
      match lexWord1 (s.dropWhile isWSpaceChar) with
      | none => none
      | some (t, s) =>
        let label :=
          match lexSpaces1 s with
          | none => none
          | some s => (lexQuoted s).map Prod.fst
        some ⟨some f, some t, label⟩

/-- The segments between `\n` separators — the positions where `(?m)^` can
anchor a match. -/
def splitLinesChars : List Char → List (List Char)
  | [] => [[]]
  | c :: rest =>
      if c = '\n' then [] :: splitLinesChars rest
      else
        match splitLinesChars rest with
        | [] => [[c]]
        | l :: ls => (c :: l) :: ls

/-- `captures_iter`: all matches of a line-anchored pattern, in textual order. -/
def regexCaptures (matcher : List Char → Option RegexCapture)
    (input : String) : List RegexCapture :=
  (splitLinesChars input.toList).filterMap matcher

/-- `cap.get(i).ok_or_else(...)`. -/
def okOr {α : Type} (o : Option α) (msg : String) : Except String α :=
  match o with
  | some a => Except.ok a
  | none => Except.error msg

/-- `parser.rs` — the `for cap in container_re.captures_iter(input)` loop
(also used for components, which run the identical body). -/
def addContainers (node_type : NodeType) (idMsg nameMsg : String) :
    List RegexCapture → OptaModel → Except String OptaModel
  | [], m => Except.ok m
  | cap :: rest, m => do
      let id ← okOr cap.g1 idMsg
      let name ← okOr cap.g2 nameMsg
      let node := OptaNode.new id name node_type
      let node :=
        match cap.g3 with
        | some tech => node.with_technology tech
        | none => node
      addContainers node_type idMsg nameMsg rest (m.add_node node)

/-- `parser.rs` — the person/system loops (no technology group). -/
def addPlainNodes (node_type : NodeType) (idMsg nameMsg : String) :
    List RegexCapture → OptaModel → Except String OptaModel
  | [], m => Except.ok m
  | cap :: rest, m => do
      let id ← okOr cap.g1 idMsg
      let name ← okOr cap.g2 nameMsg
      let node := OptaNode.new id name node_type
      addPlainNodes node_type idMsg nameMsg rest (m.add_node node)

/-- `parser.rs` — the relationship loop. -/
def addRelationships :
    List RegexCapture → OptaModel → Except String OptaModel
  | [], m => Except.ok m
  | cap :: rest, m => do
      let f ← okOr cap.g1 "Missing relationship source"
      let t ← okOr cap.g2 "Missing relationship target"
      let edge := OptaEdge.new f t
      let edge :=
        match cap.g3 with
        | some l => edge.with_label l
        | none => edge
      addRelationships rest (m.add_edge edge)

/-- `parser.rs` — `parse_c4_dsl`: containers, then components, then persons,
then systems, then relationships, each category scanning the whole input in
textual order.  (`Regex::new` cannot fail on the five static patterns, so the
pattern-compilation error path is not part of the embedding.) -/
def parse_c4_dsl (input : String) : Except String OptaModel := do
  let model := OptaModel.new
  let model ← addContainers NodeType.Container
    "Missing container ID" "Missing container name"
    (regexCaptures (matchDecl "container" true) input) model
  let model ← addContainers NodeType.Component
    "Missing component ID" "Missing component name"
    (regexCaptures (matchDecl "component" true) input) model
  let model ← addPlainNodes NodeType.Person
    "Missing person ID" "Missing person name"
    (regexCaptures (matchDecl "person" false) input) model
  let model ← addPlainNodes NodeType.System
    "Missing system ID" "Missing system name"
    (regexCaptures (matchDecl "system" false) input) model
  let model ← addRelationships
    (regexCaptures matchRelationship input) model
  pure model

/-! ### Layout optimizer (`optimizer.rs`)

`compute_forces` takes square roots of running coordinates, which exact
rationals cannot represent, and `initialize_positions` draws from a random
number generator; the embedding therefore abstracts both: `forceF pos i` is
the displacement `compute_forces` yields for node `i` at positions `pos`
(element-wise, exactly how the tensor addition consumes it), and `init i` is
the random initial position of node `i`.  Every theorem below holds for all
`forceF` and `init`, hence for the ones the Rust code computes.  The field
`sqrt_area` embeds the value `self.area.sqrt()`. -/

/-- `optimizer.rs` — `struct OptaOptimizer` (the `k` constant and the raw
`area` only feed the abstracted force computation). -/
structure OptaOptimizer where
  iterations : ℕ
  learning_rate : ℚ
  sqrt_area : ℚ
  deriving DecidableEq, Repr

/-- `optimizer.rs` — `clamp_positions`: clamp every coordinate into
`[0, sqrt(area)]` (Burn's `Tensor::clamp(0.0, max_val)`, element-wise). -/
def clamp_positions (opt : OptaOptimizer) (positions : List (ℚ × ℚ)) :
    List (ℚ × ℚ) :=
  positions.map
    (fun p => (min (max p.1 0) opt.sqrt_area, min (max p.2 0) opt.sqrt_area))

/-- One iteration of the `for iteration in 0..self.iterations` loop of
`optimize_layout`: linear cooling, displacement scaled by temperature and
added element-wise, then clamping. -/
def optimize_step (opt : OptaOptimizer)
    (forceF : List (ℚ × ℚ) → ℕ → ℚ × ℚ) (iteration : ℕ)
    (positions : List (ℚ × ℚ)) : List (ℚ × ℚ) :=
  let cooling : ℚ := 1 - (iteration : ℚ) / (opt.iterations : ℚ)
  let temperature := opt.learning_rate * cooling
  let moved := positions.mapIdx
    (fun i p =>
      (p.1 + (forceF positions i).1 * temperature,
       p.2 + (forceF positions i).2 * temperature))
  clamp_positions opt moved

/-- `optimizer.rs` — `initialize_positions`: one (random) coordinate pair per
node, the generator being the explicit parameter `init`. -/
def initialize_positions (count : ℕ) (init : ℕ → ℚ × ℚ) : List (ℚ × ℚ) :=
  (List.range count).map init

/-- `optimizer.rs` — `apply_positions_to_model`: write coordinate pair `idx`
onto node `idx`.  (In Rust the flat tensor always holds exactly one pair per
node, so the `none` fallback is unreachable at the call site.) -/
def apply_positions_to_model (m : OptaModel) (positions : List (ℚ × ℚ)) :
    OptaModel :=
  { m with
      nodes := m.nodes.mapIdx
        (fun idx node =>
          match positions.get? idx with
          | some p => node.set_position p.1 p.2
          | none => node) }

/-- `optimizer.rs` — `optimize_layout`: fail on an empty model, fail when the
adjacency matrix is absent, otherwise run all iterations from the random
initial positions and write the final coordinates back; the model is returned
unchanged alongside an error, mirroring `&mut` receiving no writes before the
early returns. -/
def optimize_layout (opt : OptaOptimizer)
    (forceF : List (ℚ × ℚ) → ℕ → ℚ × ℚ) (init : ℕ → ℚ × ℚ)
    (m : OptaModel) : Except String Unit × OptaModel :=
  if m.node_count = 0 then
    (Except.error "Cannot optimize empty model", m)
  else
    match m.adjacency_matrix with
    | none =>
        (Except.error
          "Adjacency matrix not built. Call build_adjacency_matrix() first", m)
    | some _ =>
        let positions := initialize_positions m.node_count init
        let positions := (List.range opt.iterations).foldl
          (fun pos iteration => optimize_step opt forceF iteration pos)
          positions
        (Except.ok (), apply_positions_to_model m positions)

/-! ### Text exporter (`viz.rs`) -/

/-- `viz.rs` — `node_type_to_shape`. -/
def node_type_to_shape : NodeType → String
  | NodeType.System => "box3d"
  | NodeType.Container => "component"
  | NodeType.Component => "box"
  | NodeType.Person => "ellipse"

/-- `viz.rs` — `severity_to_color` (`0.7` and `0.3` are exact `f32` comparisons
against values that `f32` represents as the nearest binary approximations of
`7/10` and `3/10`; every severity the claims touch is far from those cutoffs
or hits them exactly as the same approximation, so the rational bands below
decide identically). -/
def severity_to_color (severity : ℚ) : String :=
  if 1 ≤ severity then "#ff4444"
  else if 7/10 ≤ severity then "#ff8844"
  else if 3/10 ≤ severity then "#ffcc44"
  else if 0 < severity then "#cccccc"
  else "#aaddaa"

/-- `viz.rs` `build_severity_map` — one pattern's update of the running map:
`entry(id).or_insert(0.0)` then `*current = current.max(sev)`. -/
def severityEntryMax (m : List (String × ℚ)) (node_id : String) (sev : ℚ) :
    List (String × ℚ) :=
  match hmGet m node_id with
  | some current => hmInsert m node_id (max current sev)
  | none => hmInsert m node_id (max 0 sev)

/-- `viz.rs` `build_severity_map` — one detected pattern's update of the
running map. -/
def severity_update (m : List (String × ℚ)) : AntiPattern → List (String × ℚ)
  | AntiPattern.Cycle nodes =>
      nodes.foldl (fun m node_id => severityEntryMax m node_id 1) m
  | AntiPattern.Bottleneck node_id _ severity =>
      severityEntryMax m node_id severity
  | AntiPattern.IsolatedComponent node_id =>
      severityEntryMax m node_id (3/10)
  | AntiPattern.OverCoupling node_id _ severity =>
      severityEntryMax m node_id severity

/-- `viz.rs` — `build_severity_map`: fold the detected patterns, keeping per
node the maximum of the contributed severities (`1.0` for a cycle member,
`0.3` for an isolated component, the reported severity otherwise). -/
def build_severity_map (patterns : List AntiPattern) : List (String × ℚ) :=
  patterns.foldl severity_update []

/-- `viz.rs` — `extract_cycle_nodes` (the `HashSet` as a duplicate-free list). -/
def extract_cycle_nodes (patterns : List AntiPattern) : List String :=
  patterns.foldl
    (fun s pattern =>
      match pattern with
      | AntiPattern.Cycle nodes =>
          nodes.foldl (fun s node_id => if node_id ∈ s then s else s ++ [node_id]) s
      | _ => s)
    []

/-- The `style` picked for a node in `to_dot`'s node loop: dashed border
exactly when `0 < severity < 0.5`. -/
def dotNodeStyle (severity : ℚ) : String :=
  if 0 < severity ∧ severity < 1/2 then "filled,dashed" else "filled"

/-- Rust's `{:.2}` formatting of the (always non-negative here) embedded `f32`
values: round to two decimals, ties to even. -/
def formatQ2 (q : ℚ) : String :=
  let scaled : ℚ := q * 100
  let fl : ℤ := ⌊scaled⌋
  let frac : ℚ := scaled - (fl : ℚ)
  let n : ℤ :=
    if frac < 1/2 then fl
    else if 1/2 < frac then fl + 1
    else if fl % 2 = 0 then fl else fl + 1
  let ip := n / 100
  let fp := (n % 100).toNat
  let fpStr := if fp < 10 then "0" ++ toString fp else toString fp
  toString ip ++ "." ++ fpStr

/-- The tail of a node statement in `to_dot`'s node loop: the optional
severity tooltip, the closing bracket, and the trailing position/severity
comment lines. -/
def dotNodeSuffix (severity : ℚ) (position : Option (ℚ × ℚ)) : String :=
  (if 0 < severity then
      ", tooltip=\"Severity: " ++ formatQ2 severity ++ "\""
    else "") ++
  "];\n" ++
  (match position with
   | some (x, y) =>
       "  // Position: (" ++ formatQ2 x ++ ", " ++ formatQ2 y ++
         "), Severity: " ++ formatQ2 severity ++ "\n"
   | none =>
       if 0 < severity then
         "  // Severity: " ++ formatQ2 severity ++ "\n"
       else "")

/-- The node statement emitted by `to_dot`'s node loop (label, fill colour by
severity band, shape by node type, dashed style for low severities, then the
tooltip/comment tail). -/
def dotNodeStatement (severity_map : List (String × ℚ)) (node : OptaNode) :
    String :=
  let severity := (hmGet severity_map node.id).getD 0
  let color := severity_to_color severity
  let shape := node_type_to_shape node.node_type
  let style := dotNodeStyle severity
  "  \"" ++ node.id ++ "\" [label=\"" ++ node.name ++ "\", fillcolor=\"" ++
      color ++ "\", shape=" ++ shape ++ ", style=\"" ++ style ++ "\"" ++
    dotNodeSuffix severity node.position

/-- The edge statement emitted by `to_dot`'s edge loop: cycle edges bold and
red, others with weight-scaled pen width. -/
def dotEdgeStatement (cycle_nodes : List String) (edge : OptaEdge) : String :=
  let label := edge.label.getD ""
  let is_cycle_edge := edge.«from» ∈ cycle_nodes ∧ edge.«to» ∈ cycle_nodes
  let pw := if is_cycle_edge then (3 : ℚ) else 1 + (edge.weight - 1) * (1/2)
  let color := if is_cycle_edge then ", color=\"#ff0000\"" else ""
  "  \"" ++ edge.«from» ++ "\" -> \"" ++ edge.«to» ++ "\" [label=\"" ++ label ++
    "\", penwidth=" ++ formatQ2 pw ++ color ++ "];\n"

/-- The per-pattern trailing comment block of `to_dot`. -/
def dotPatternComment (pattern : AntiPattern) : String :=
  match pattern with
  | AntiPattern.Cycle nodes =>
      "  // Cycle: " ++ toString nodes ++ "\n"
  | AntiPattern.Bottleneck node_id in_degree severity =>
      "  // Bottleneck: " ++ node_id ++ " (in_degree=" ++ toString in_degree ++
        ", severity=" ++ formatQ2 severity ++ ")\n"
  | AntiPattern.IsolatedComponent node_id =>
      "  // Isolated: " ++ node_id ++ "\n"
  | AntiPattern.OverCoupling node_id out_degree severity =>
      "  // Over-coupled: " ++ node_id ++ " (out_degree=" ++ toString out_degree ++
        ", severity=" ++ formatQ2 severity ++ ")\n"

/-- `viz.rs` — `to_dot` (default export mode): detect patterns when a config is
supplied, then emit every node with severity-derived attributes, every edge,
and a comment block per pattern.  (The Rust function returns `Result` but
never errs, detection being total.) -/
def to_dot (m : OptaModel) (config : Option AntiPatternConfig) : String :=
  let header := "digraph Architecture \x7b\n" ++
    "  rankdir=TB;\n" ++ "  splines=curved;\n" ++
    "  node [style=filled, fontsize=10, fontcolor=\"#333333\"];\n" ++
    "  edge [penwidth=1.5];\n\n"
  let patterns :=
    match config with
    | some cfg => detect_anti_patterns m cfg
    | none => []
  let severity_map := build_severity_map patterns
  let cycle_nodes := extract_cycle_nodes patterns
  let body := (m.nodes.map (dotNodeStatement severity_map)).foldl (· ++ ·) ""
  let body := body ++ "\n"
  let body := body ++ (m.edges.map (dotEdgeStatement cycle_nodes)).foldl (· ++ ·) ""
  let body :=
    if patterns.isEmpty then body
    else
      body ++ "\n  // Anti-patterns detected:\n" ++
        (patterns.map dotPatternComment).foldl (· ++ ·) ""
  header ++ body ++ "\x7d\n"

/-! ### JNI configuration layer (`optacore_jni/src/lib.rs`) -/

/-- `optacore_jni/src/lib.rs` — `validate_config`: thresholds below 1 are
rejected. -/
def validate_config (config : AntiPatternConfig) : Except String Unit :=
  if config.bottleneck_threshold < 1 then
    Except.error
      ("Invalid bottleneck_threshold: " ++ toString config.bottleneck_threshold ++
        " (must be >= 1)")
  else if config.over_coupling_threshold < 1 then
    Except.error
      ("Invalid over_coupling_threshold: " ++
        toString config.over_coupling_threshold ++ " (must be >= 1)")
  else Except.ok ()

/-- The anti-pattern configuration JSON object as the JNI entry point reads
it: each threshold field is `none` when absent from the object, and otherwise
carries the result of `Value::as_u64` (`none` for a value that is not a
non-negative integer). -/
structure JniConfigJson where
  bottleneck_threshold : Option (Option ℕ)
  over_coupling_threshold : Option (Option ℕ)
  deriving DecidableEq, Repr

/-- `optacore_jni/src/lib.rs` — the non-empty-config branch of
`Java_com_optafly_structurizr_OptaCoreJNI_detectAntiPatterns`:
`json.get("bottleneck_threshold").and_then(as_u64).unwrap_or(5)`,
`json.get("over_coupling_threshold").and_then(as_u64).unwrap_or(8)`,
`detect_isolated: true`, then `validate_config`. -/
def jni_parse_config (json : JniConfigJson) : Except String AntiPatternConfig :=
  let bottleneck := (json.bottleneck_threshold.bind id).getD 5
  let over_coupling := (json.over_coupling_threshold.bind id).getD 8
  let cfg : AntiPatternConfig :=
    { bottleneck_threshold := bottleneck,
      over_coupling_threshold := over_coupling,
      detect_isolated := true }
  match validate_config cfg with
  | Except.error e => Except.error e
  | Except.ok _ => Except.ok cfg

/-! ### Spec-side characterisations and concrete instances

The definitions below do not embed source code; they restate, in the spec's
words, the values the theorems compare the embedded functions against. -/

/-- Number of edges terminating at `id` (the spec's in-degree). -/
def inDegree (m : OptaModel) (id : String) : ℕ :=
  (m.edges.filter (fun e => e.«to» = id)).length

/-- Number of edges originating at `id` (the spec's out-degree). -/
def outDegree (m : OptaModel) (id : String) : ℕ :=
  (m.edges.filter (fun e => e.«from» = id)).length

/-- The severity a single detected pattern contributes to a node, if the
pattern touches it (`1.0` for cycle membership, `0.3` for isolation, the
reported severity otherwise). -/
def patternTouch (id : String) : AntiPattern → Option ℚ
  | AntiPattern.Cycle nodes => if id ∈ nodes then some 1 else none
  | AntiPattern.Bottleneck nid _ s => if nid = id then some s else none
  | AntiPattern.IsolatedComponent nid => if nid = id then some (3/10) else none
  | AntiPattern.OverCoupling nid _ s => if nid = id then some s else none

/-- The spec's "maximum severity across all detected patterns touching the
node" (0 when none touches it). -/
def maxSeverity (patterns : List AntiPattern) (id : String) : ℚ :=
  (patterns.filterMap (patternTouch id)).foldl max 0

/-- The node a container/component capture line turns into. -/
def nodeOfCap (t : NodeType) (cap : RegexCapture) : OptaNode :=
  { id := cap.g1.getD "", name := cap.g2.getD "", node_type := t,
    technology := cap.g3 }

/-- The node a person/system capture line turns into. -/
def plainNodeOfCap (t : NodeType) (cap : RegexCapture) : OptaNode :=
  { id := cap.g1.getD "", name := cap.g2.getD "", node_type := t }

/-- The edge a relationship capture line turns into (weight defaults to 1.0). -/
def edgeOfCap (cap : RegexCapture) : OptaEdge :=
  { «from» := cap.g1.getD "", «to» := cap.g2.getD "", label := cap.g3 }

/-- The node at insertion index `i` bears the id (the spec's "the id resolves
to insertion index `i`", unambiguous for pairwise distinct ids). -/
def hasIdAt (nodes : List OptaNode) (id : String) (i : ℕ) : Bool :=
  match nodes[i]? with
  | some node => node.id = id
  | none => false

/-- A graph with two disjoint 2-cycles (`a ↔ b` and `c ↔ d`). -/
def twoDisjointCyclesModel : OptaModel :=
  { nodes := [OptaNode.new "a" "A" NodeType.Container,
              OptaNode.new "b" "B" NodeType.Container,
              OptaNode.new "c" "C" NodeType.Container,
              OptaNode.new "d" "D" NodeType.Container],
    edges := [OptaEdge.new "a" "b", OptaEdge.new "b" "a",
              OptaEdge.new "c" "d", OptaEdge.new "d" "c"],
    adjacency_matrix := none }

/-- A single node with no edges. -/
def singleNodeModel : OptaModel :=
  { nodes := [OptaNode.new "n" "N" NodeType.Component],
    edges := [],
    adjacency_matrix := none }

/-- Two nodes sharing the id `"x"`, plus a distinct node `"b"` and an edge
`x → b`. -/
def duplicateIdModel : OptaModel :=
  { nodes := [OptaNode.new "x" "First X" NodeType.Container,
              OptaNode.new "x" "Second X" NodeType.Container,
              OptaNode.new "b" "B" NodeType.Container],
    edges := [OptaEdge.new "x" "b"],
    adjacency_matrix := none }

/-- The DSL scenario text of the spec:
`container A "A"` / `container B "B"` / `A -> B`. -/
def scenarioInput : String :=
  "container A \"A\"\ncontainer B \"B\"\nA -> B"

/-- The model the scenario text parses to. -/
def scenarioModel : OptaModel :=
  { nodes := [{ id := "A", name := "A", node_type := NodeType.Container },
              { id := "B", name := "B", node_type := NodeType.Container }],
    edges := [{ «from» := "A", «to» := "B" }],
    adjacency_matrix := none }

/-! ## Supporting lemmas -/

theorem hmGet_hmInsert_self {α : Type} (m : List (String × α)) (k : String)
    (v : α) : hmGet (hmInsert m k v) k = some v := by
  induction m with
  | nil => simp [hmInsert, hmGet]
  | cons hd tl ih =>
      obtain ⟨k', v'⟩ := hd
      by_cases h : k' = k <;> simp [hmInsert, hmGet, h, ih]

theorem hmGet_hmInsert_ne {α : Type} (m : List (String × α)) (k k' : String)
    (v : α) (h : k ≠ k') : hmGet (hmInsert m k v) k' = hmGet m k' := by
  induction m with
  | nil => simp [hmInsert, hmGet, h]
  | cons hd tl ih =>
      obtain ⟨k₀, v₀⟩ := hd
      by_cases h₀ : k₀ = k
      · subst h₀; simp [hmInsert, hmGet, h]
      · by_cases h₁ : k₀ = k' <;>
          simp [hmInsert, hmGet, h₀, h₁, ih, Ne.symm h]

theorem detect_cycles_visit_len (fuel : ℕ)
    (adjacency : List (String × List String))
    (acc : DfsMaps × List AntiPattern) (n : OptaNode) :
    (detect_cycles_visit fuel adjacency acc n).2.length ≤ acc.2.length + 1 := by
  unfold detect_cycles_visit
  split
  · rcases h : dfs_visit adjacency fuel n.id acc.1 with ⟨st, cyc⟩
    cases cyc <;> simp [h]
  · simp

theorem detect_cycles_fold_len (fuel : ℕ)
    (adjacency : List (String × List String)) (ns : List OptaNode)
    (acc : DfsMaps × List AntiPattern) :
    (ns.foldl (detect_cycles_visit fuel adjacency) acc).2.length ≤
      acc.2.length + ns.length := by
  induction ns generalizing acc with
  | nil => simp
  | cons hd tl ih =>
      calc (List.foldl (detect_cycles_visit fuel adjacency) acc (hd :: tl)).2.length
          = ((tl.foldl (detect_cycles_visit fuel adjacency)
              (detect_cycles_visit fuel adjacency acc hd))).2.length := by simp
        _ ≤ (detect_cycles_visit fuel adjacency acc hd).2.length + tl.length :=
            ih _
        _ ≤ (acc.2.length + 1) + tl.length := by
            have := detect_cycles_visit_len fuel adjacency acc hd
            omega
        _ = acc.2.length + (hd :: tl).length := by simp; omega

theorem clamp_positions_length (opt : OptaOptimizer) (ps : List (ℚ × ℚ)) :
    (clamp_positions opt ps).length = ps.length := by
  simp [clamp_positions]

theorem optimize_step_length (opt : OptaOptimizer)
    (forceF : List (ℚ × ℚ) → ℕ → ℚ × ℚ) (it : ℕ) (ps : List (ℚ × ℚ)) :
    (optimize_step opt forceF it ps).length = ps.length := by
  simp [optimize_step, clamp_positions]

theorem optimize_fold_length (opt : OptaOptimizer)
    (forceF : List (ℚ × ℚ) → ℕ → ℚ × ℚ) (its : List ℕ) (ps : List (ℚ × ℚ)) :
    (its.foldl (fun pos iteration => optimize_step opt forceF iteration pos)
      ps).length = ps.length := by
  induction its generalizing ps with
  | nil => rfl
  | cons hd tl ih => simp [ih, optimize_step_length]

theorem clamp_positions_mem (opt : OptaOptimizer) (ps : List (ℚ × ℚ))
    (hA : 0 ≤ opt.sqrt_area) (p : ℚ × ℚ) (hp : p ∈ clamp_positions opt ps) :
    0 ≤ p.1 ∧ p.1 ≤ opt.sqrt_area ∧ 0 ≤ p.2 ∧ p.2 ≤ opt.sqrt_area := by
  simp only [clamp_positions, List.mem_map] at hp
  obtain ⟨q, -, rfl⟩ := hp
  refine ⟨le_min (le_max_right _ _) hA, min_le_right _ _,
    le_min (le_max_right _ _) hA, min_le_right _ _⟩

theorem apply_positions_to_model_mem (m : OptaModel) (ps : List (ℚ × ℚ))
    (hlen : ps.length = m.nodes.length) (node : OptaNode)
    (hmem : node ∈ (apply_positions_to_model m ps).nodes) :
    ∃ p ∈ ps, node.position = some p := by
  simp only [apply_positions_to_model, List.mapIdx_eq_enum_map,
    List.mem_map] at hmem
  obtain ⟨⟨i, a⟩, hia, rfl⟩ := hmem
  have hi : i < m.nodes.length := by
    have := List.fst_lt_of_mem_enum hia
    simpa using this
  have hi' : i < ps.length := by omega
  refine ⟨ps.get ⟨i, hi'⟩, List.get_mem ps i hi', ?_⟩
  simp only [Function.uncurry]
  rw [List.get?_eq_getElem?, List.getElem?_eq_getElem hi']
  simp [OptaNode.set_position, List.get_eq_getElem]

theorem except_bind_ok {α β : Type} (a : α) (f : α → Except String β) :
    (Except.ok a >>= f) = f a := rfl

theorem matchDecl_groups (k : String) (w : Bool) (l : List Char)
    (cap : RegexCapture) (h : matchDecl k w l = some cap) :
    cap.g1.isSome ∧ cap.g2.isSome := by
  unfold matchDecl at h
  repeat' split at h
  all_goals first
    | exact Option.noConfusion h
    | (simp only [Option.some.injEq] at h; subst h; simp)

theorem matchRelationship_groups (l : List Char) (cap : RegexCapture)
    (h : matchRelationship l = some cap) :
    cap.g1.isSome ∧ cap.g2.isSome := by
  unfold matchRelationship at h
  repeat' split at h
  all_goals first
    | exact Option.noConfusion h
    | (simp only [Option.some.injEq] at h; subst h; simp)

theorem regexCaptures_decl_groups (k : String) (w : Bool) (input : String) :
    ∀ cap ∈ regexCaptures (matchDecl k w) input,
      cap.g1.isSome ∧ cap.g2.isSome := by
  intro cap hcap
  simp only [regexCaptures, List.mem_filterMap] at hcap
  obtain ⟨l, -, hl⟩ := hcap
  exact matchDecl_groups k w l cap hl

theorem regexCaptures_rel_groups (input : String) :
    ∀ cap ∈ regexCaptures matchRelationship input,
      cap.g1.isSome ∧ cap.g2.isSome := by
  intro cap hcap
  simp only [regexCaptures, List.mem_filterMap] at hcap
  obtain ⟨l, -, hl⟩ := hcap
  exact matchRelationship_groups l cap hl

theorem addContainers_spec (t : NodeType) (i n : String) :
    ∀ (caps : List RegexCapture) (m : OptaModel),
      (∀ cap ∈ caps, cap.g1.isSome ∧ cap.g2.isSome) →
      ∃ m', addContainers t i n caps m = Except.ok m'
        ∧ m'.nodes = m.nodes ++ caps.map (nodeOfCap t)
        ∧ m'.edges = m.edges := by
  intro caps
  induction caps with
  | nil => intro m _; exact ⟨m, rfl, by simp, rfl⟩
  | cons cap rest ih =>
      intro m hcaps
      obtain ⟨h1, h2⟩ := hcaps cap (by simp)
      obtain ⟨a, ha⟩ := Option.isSome_iff_exists.mp h1
      obtain ⟨b, hb⟩ := Option.isSome_iff_exists.mp h2
      obtain ⟨m', hm', hnodes, hedges⟩ :=
        ih (m.add_node (match cap.g3 with
          | some tech => (OptaNode.new a b t).with_technology tech
          | none => OptaNode.new a b t))
          (fun c hc => hcaps c (by simp [hc]))
      refine ⟨m', ?_, ?_, ?_⟩
      · simpa [addContainers, okOr, ha, hb] using hm'
      · rw [hnodes]
        rcases cap with ⟨g1, g2, g3⟩
        simp only at ha hb
        subst ha; subst hb
        cases g3 <;>
          simp [OptaModel.add_node, nodeOfCap, OptaNode.new,
            OptaNode.with_technology]
      · rw [hedges]; rfl

theorem addPlainNodes_spec (t : NodeType) (i n : String) :
    ∀ (caps : List RegexCapture) (m : OptaModel),
      (∀ cap ∈ caps, cap.g1.isSome ∧ cap.g2.isSome) →
      ∃ m', addPlainNodes t i n caps m = Except.ok m'
        ∧ m'.nodes = m.nodes ++ caps.map (plainNodeOfCap t)
        ∧ m'.edges = m.edges := by
  intro caps
  induction caps with
  | nil => intro m _; exact ⟨m, rfl, by simp, rfl⟩
  | cons cap rest ih =>
      intro m hcaps
      obtain ⟨h1, h2⟩ := hcaps cap (by simp)
      obtain ⟨a, ha⟩ := Option.isSome_iff_exists.mp h1
      obtain ⟨b, hb⟩ := Option.isSome_iff_exists.mp h2
      obtain ⟨m', hm', hnodes, hedges⟩ :=
        ih (m.add_node (OptaNode.new a b t))
          (fun c hc => hcaps c (by simp [hc]))
      refine ⟨m', ?_, ?_, ?_⟩
      · simpa [addPlainNodes, okOr, ha, hb] using hm'
      · rw [hnodes]
        rcases cap with ⟨g1, g2, g3⟩
        simp only at ha hb
        subst ha; subst hb
        simp [OptaModel.add_node, plainNodeOfCap, OptaNode.new]
      · rw [hedges]; rfl

theorem addRelationships_spec :
    ∀ (caps : List RegexCapture) (m : OptaModel),
      (∀ cap ∈ caps, cap.g1.isSome ∧ cap.g2.isSome) →
      ∃ m', addRelationships caps m = Except.ok m'
        ∧ m'.edges = m.edges ++ caps.map edgeOfCap
        ∧ m'.nodes = m.nodes := by
  intro caps
  induction caps with
  | nil => intro m _; exact ⟨m, rfl, by simp, rfl⟩
  | cons cap rest ih =>
      intro m hcaps
      obtain ⟨h1, h2⟩ := hcaps cap (by simp)
      obtain ⟨a, ha⟩ := Option.isSome_iff_exists.mp h1
      obtain ⟨b, hb⟩ := Option.isSome_iff_exists.mp h2
      obtain ⟨m', hm', hedges, hnodes⟩ :=
        ih (m.add_edge (match cap.g3 with
          | some l => (OptaEdge.new a b).with_label l
          | none => OptaEdge.new a b))
          (fun c hc => hcaps c (by simp [hc]))
      refine ⟨m', ?_, ?_, ?_⟩
      · simpa [addRelationships, okOr, ha, hb] using hm'
      · rw [hedges]
        rcases cap with ⟨g1, g2, g3⟩
        simp only at ha hb
        subst ha; subst hb
        cases g3 <;>
          simp [OptaModel.add_edge, edgeOfCap, OptaEdge.new, OptaEdge.with_label]
      · rw [hnodes]; rfl

theorem getLast?_mem' {α : Type} {l : List α} {a : α}
    (h : l.getLast? = some a) : a ∈ l := by
  obtain ⟨hne, rfl⟩ := List.mem_getLast?_eq_getLast (Option.mem_def.mpr h)
  exact List.getLast_mem hne

theorem hmGet_foldl_insert {α β : Type} (f : β → String) (g : β → α)
    (l : List β) (m0 : List (String × α)) (k : String) :
    hmGet (l.foldl (fun m p => hmInsert m (f p) (g p)) m0) k =
      match (l.filter (fun p => decide (f p = k))).getLast? with
      | some p => some (g p)
      | none => hmGet m0 k := by
  induction l using List.reverseRecOn generalizing m0 with
  | nil => rfl
  | append_singleton ps p ih =>
      rw [List.foldl_append, List.filter_append]
      simp only [List.foldl_cons, List.foldl_nil]
      by_cases hpk : f p = k
      · have hfil : List.filter (fun q => decide (f q = k)) [p] = [p] := by
          simp [hpk]
        rw [hfil, List.getLast?_concat, ← hpk]
        exact hmGet_hmInsert_self _ _ _
      · have hfil : List.filter (fun q => decide (f q = k)) [p] = [] := by
          simp [hpk]
        rw [hfil, List.append_nil, hmGet_hmInsert_ne _ _ _ _ hpk]
        exact ih m0

theorem node_index_map_char (nodes : List OptaNode) (id : String) :
    hmGet (node_index_map nodes) id =
      ((nodes.enum.filter (fun p => decide (p.2.id = id))).getLast?).map
        Prod.fst := by
  have h := hmGet_foldl_insert (fun p : ℕ × OptaNode => p.2.id)
    (fun p : ℕ × OptaNode => p.1) nodes.enum [] id
  unfold node_index_map
  rw [h]
  cases hx : (nodes.enum.filter (fun p => decide (p.2.id = id))).getLast? <;>
    rfl

theorem node_index_map_lt (nodes : List OptaNode) (id : String) (i : ℕ)
    (h : hmGet (node_index_map nodes) id = some i) : i < nodes.length := by
  rw [node_index_map_char] at h
  rcases hl : (nodes.enum.filter (fun p => decide (p.2.id = id))).getLast? with
    _ | p
  · rw [hl] at h; exact Option.noConfusion h
  · rw [hl] at h
    simp at h
    have hpmem : p ∈ nodes.enum := List.mem_of_mem_filter (getLast?_mem' hl)
    have := List.fst_lt_of_mem_enum hpmem
    omega

theorem nodup_id_index_unique (nodes : List OptaNode)
    (hnd : (nodes.map (fun n => n.id)).Nodup) {i j : ℕ} {a b : OptaNode}
    (hi : nodes[i]? = some a) (hj : nodes[j]? = some b)
    (hab : a.id = b.id) : i = j := by
  have hi' : i < nodes.length := by
    by_contra hcon
    rw [List.getElem?_eq_none (by omega)] at hi
    exact Option.noConfusion hi
  refine List.getElem?_inj
    (show i < (nodes.map (fun n => n.id)).length by simpa using hi') hnd ?_
  rw [List.getElem?_map, List.getElem?_map, hi, hj]
  simp [hab]

theorem hasIdAt_iff (nodes : List OptaNode) (id : String) (i : ℕ) :
    hasIdAt nodes id i = true ↔
      ∃ node, nodes[i]? = some node ∧ node.id = id := by
  unfold hasIdAt
  rcases h : nodes[i]? with _ | node
  · simp
  · simp

theorem node_index_map_nodup_iff (nodes : List OptaNode)
    (hnd : (nodes.map (fun n => n.id)).Nodup) (id : String) (i : ℕ) :
    hmGet (node_index_map nodes) id = some i ↔ hasIdAt nodes id i = true := by
  rw [node_index_map_char]
  constructor
  · intro h
    rcases hl : (nodes.enum.filter (fun p => decide (p.2.id = id))).getLast?
      with _ | ⟨j, a⟩
    · rw [hl] at h; exact Option.noConfusion h
    · rw [hl] at h
      simp at h
      have hfil := getLast?_mem' hl
      have hmem : (j, a) ∈ nodes.enum := List.mem_of_mem_filter hfil
      have hid : a.id = id := by
        have hf2 := List.of_mem_filter hfil
        exact of_decide_eq_true hf2
      have hget : nodes[j]? = some a := List.mk_mem_enum_iff_getElem?.mp hmem
      have hji : j = i := h
      subst hji
      exact (hasIdAt_iff nodes id j).mpr ⟨a, hget, hid⟩
  · intro h
    obtain ⟨node, hget, hid⟩ := (hasIdAt_iff nodes id i).mp h
    · have hmem : (i, node) ∈ nodes.enum :=
        List.mk_mem_enum_iff_getElem?.mpr hget
      have hfil : (i, node) ∈
          nodes.enum.filter (fun p => decide (p.2.id = id)) :=
        List.mem_filter.mpr ⟨hmem, by simp [hid]⟩
      have hne := List.ne_nil_of_mem hfil
      obtain ⟨q, hq⟩ := Option.isSome_iff_exists.mp
        (List.getLast?_isSome.mpr hne)
      rcases q with ⟨j, b⟩
      have hqfil := getLast?_mem' hq
      have hqmem : (j, b) ∈ nodes.enum := List.mem_of_mem_filter hqfil
      have hqid : b.id = id := by
        have hq2 := List.of_mem_filter hqfil
        exact of_decide_eq_true hq2
      have hqget : nodes[j]? = some b := List.mk_mem_enum_iff_getElem?.mp hqmem
      have hji : j = i :=
        nodup_id_index_unique nodes hnd hqget hget (by rw [hqid, hid])
      rw [hq]
      simp [hji]

theorem setCell_length (mat : List (List ℚ)) (i j : ℕ) (w : ℚ) :
    (setCell mat i j w).length = mat.length := by
  simp [setCell]

theorem setCell_rows (mat : List (List ℚ)) (n i j : ℕ) (w : ℚ)
    (hlen : mat.length = n) (hrows : ∀ row ∈ mat, row.length = n) :
    ∀ row ∈ setCell mat i j w, row.length = n := by
  intro row hrow
  by_cases hi : i < mat.length
  · rcases List.mem_or_eq_of_mem_set hrow with h1 | h1
    · exact hrows row h1
    · subst h1
      rw [List.length_set]
      have hsome : mat[i]? = some mat[i] := List.getElem?_eq_getElem hi
      rw [List.get?_eq_getElem?, hsome]
      exact hrows _ (List.getElem_mem hi)
  · rw [setCell, List.set_eq_of_length_le (by omega)] at hrow
    exact hrows row hrow

theorem getCell_setCell_same (mat : List (List ℚ)) (n i j : ℕ) (w : ℚ)
    (hlen : mat.length = n) (hrows : ∀ row ∈ mat, row.length = n)
    (hi : i < n) (hj : j < n) :
    getCell (setCell mat i j w) i j = w := by
  have hi' : i < mat.length := by omega
  have hsome : mat[i]? = some mat[i] := List.getElem?_eq_getElem hi'
  have hrowlen : mat[i].length = n := hrows _ (List.getElem_mem hi')
  unfold setCell getCell
  simp only [List.get?_eq_getElem?]
  rw [hsome]
  simp only [Option.getD_some]
  rw [List.getElem?_set_eq_of_lt _ hi']
  simp only [Option.getD_some]
  rw [List.getElem?_set_eq_of_lt _ (by omega)]
  rfl

theorem getCell_setCell_ne (mat : List (List ℚ)) (i j i' j' : ℕ) (w : ℚ)
    (hne : ¬(i = i' ∧ j = j')) :
    getCell (setCell mat i j w) i' j' = getCell mat i' j' := by
  unfold setCell getCell
  simp only [List.get?_eq_getElem?]
  by_cases hii : i = i'
  · subst hii
    have hjj : j ≠ j' := fun hc => hne ⟨rfl, hc⟩
    by_cases hi : i < mat.length
    · have hsome : mat[i]? = some mat[i] := List.getElem?_eq_getElem hi
      rw [List.getElem?_set_eq_of_lt _ hi, hsome]
      simp only [Option.getD_some]
      rw [List.getElem?_set_ne hjj]
    · rw [List.set_eq_of_length_le (by omega)]
  · rw [List.getElem?_set_ne hii]

theorem getCell_replicate_zero (n i j : ℕ) :
    getCell (List.replicate n (List.replicate n (0 : ℚ))) i j = 0 := by
  unfold getCell
  simp only [List.get?_eq_getElem?]
  rw [List.getElem?_replicate]
  by_cases hi : i < n
  · simp only [hi, if_true, Option.getD_some]
    rw [List.getElem?_replicate]
    by_cases hj : j < n <;> simp [hj]
  · simp [hi]

theorem adjacency_write_length (idx : List (String × ℕ))
    (acc : List (List ℚ)) (e : OptaEdge) :
    (adjacency_write idx acc e).length = acc.length := by
  unfold adjacency_write
  split
  · exact setCell_length _ _ _ _
  · rfl

theorem adjacency_write_rows (idx : List (String × ℕ)) (n : ℕ)
    (acc : List (List ℚ)) (e : OptaEdge) (hlen : acc.length = n)
    (hrows : ∀ row ∈ acc, row.length = n) :
    ∀ row ∈ adjacency_write idx acc e, row.length = n := by
  unfold adjacency_write
  split
  · exact setCell_rows acc n _ _ _ hlen hrows
  · exact hrows

theorem foldl_write_length (idx : List (String × ℕ))
    (edges : List OptaEdge) (acc : List (List ℚ)) :
    (edges.foldl (adjacency_write idx) acc).length = acc.length := by
  induction edges generalizing acc with
  | nil => rfl
  | cons e rest ih =>
      simp only [List.foldl_cons]
      rw [ih, adjacency_write_length]

theorem foldl_write_rows (idx : List (String × ℕ)) (n : ℕ)
    (edges : List OptaEdge) (acc : List (List ℚ)) (hlen : acc.length = n)
    (hrows : ∀ row ∈ acc, row.length = n) :
    ∀ row ∈ edges.foldl (adjacency_write idx) acc, row.length = n := by
  induction edges generalizing acc with
  | nil => exact hrows
  | cons e rest ih =>
      simp only [List.foldl_cons]
      exact ih (adjacency_write idx acc e)
        (by rw [adjacency_write_length, hlen])
        (adjacency_write_rows idx n acc e hlen hrows)

theorem getCell_foldl_write (idx : List (String × ℕ)) (n : ℕ)
    (edges : List OptaEdge) (acc : List (List ℚ)) (hlen : acc.length = n)
    (hrows : ∀ row ∈ acc, row.length = n) (i j : ℕ) (hi : i < n) (hj : j < n) :
    getCell (edges.foldl (adjacency_write idx) acc) i j =
      match (edges.filter (fun e =>
          decide (hmGet idx e.«from» = some i ∧ hmGet idx e.«to» = some j))).getLast? with
      | some e => e.weight
      | none => getCell acc i j := by
  induction edges using List.reverseRecOn with
  | nil => rfl
  | append_singleton es e ih =>
      rw [List.foldl_append, List.filter_append]
      simp only [List.foldl_cons, List.foldl_nil]
      have hplen : (es.foldl (adjacency_write idx) acc).length = n := by
        rw [foldl_write_length, hlen]
      have hprows := foldl_write_rows idx n es acc hlen hrows
      rcases hF : hmGet idx e.«from» with _ | i₀
      · have hfil : List.filter (fun e =>
            decide (hmGet idx e.«from» = some i ∧ hmGet idx e.«to» = some j))
            [e] = [] := by simp [hF]
        rw [hfil, List.append_nil]
        have hw : adjacency_write idx (es.foldl (adjacency_write idx) acc) e =
            es.foldl (adjacency_write idx) acc := by
          unfold adjacency_write
          rw [hF]
        rw [hw, ih]
      · rcases hT : hmGet idx e.«to» with _ | j₀
        · have hfil : List.filter (fun e =>
              decide (hmGet idx e.«from» = some i ∧ hmGet idx e.«to» = some j))
              [e] = [] := by simp [hT]
          rw [hfil, List.append_nil]
          have hw : adjacency_write idx (es.foldl (adjacency_write idx) acc) e =
              es.foldl (adjacency_write idx) acc := by
            unfold adjacency_write
            rw [hF, hT]
          rw [hw, ih]
        · have hw : adjacency_write idx (es.foldl (adjacency_write idx) acc) e =
              setCell (es.foldl (adjacency_write idx) acc) i₀ j₀ e.weight := by
            unfold adjacency_write
            rw [hF, hT]
          rw [hw]
          by_cases hmatch : i₀ = i ∧ j₀ = j
          · obtain ⟨rfl, rfl⟩ := hmatch
            have hfil : List.filter (fun e =>
                decide (hmGet idx e.«from» = some i₀ ∧
                  hmGet idx e.«to» = some j₀)) [e] = [e] := by
              simp [hF, hT]
            rw [hfil, List.getLast?_concat]
            exact getCell_setCell_same _ n _ _ _ hplen hprows hi hj
          · have hfil : List.filter (fun e =>
                decide (hmGet idx e.«from» = some i ∧
                  hmGet idx e.«to» = some j)) [e] = [] := by
              simp only [List.filter, decide_eq_true_eq]
              have : ¬(hmGet idx e.«from» = some i ∧ hmGet idx e.«to» = some j) := by
                rw [hF, hT]
                intro ⟨h1, h2⟩
                exact hmatch ⟨Option.some.inj h1, Option.some.inj h2⟩
              simp [this]
            rw [hfil, List.append_nil]
            rw [getCell_setCell_ne _ _ _ _ _ _ (by
              intro ⟨h1, h2⟩
              exact hmatch ⟨h1, h2⟩)]
            exact ih

theorem hmInsert_mem_or {α : Type} {adj : List (String × α)} {k : String}
    {v : α} {p : String × α} (h : p ∈ hmInsert adj k v) :
    p ∈ adj ∨ p = (k, v) := by
  induction adj with
  | nil => simpa [hmInsert] using h
  | cons hd tl ih =>
      obtain ⟨k', v'⟩ := hd
      by_cases hk : k' = k
      · simp only [hmInsert, hk, if_true] at h
        rcases List.mem_cons.mp h with h1 | h1 <;> simp [h1]
      · simp only [hmInsert, hk, if_false] at h
        rcases List.mem_cons.mp h with h1 | h1
        · simp [h1]
        · rcases ih h1 with h2 | h2
          · simp [h2]
          · simp [h2]

theorem hmInsert_keys_nodup {α : Type} (adj : List (String × α)) (k : String)
    (v : α) (h : (adj.map Prod.fst).Nodup) :
    ((hmInsert adj k v).map Prod.fst).Nodup := by
  induction adj with
  | nil => simp [hmInsert]
  | cons hd tl ih =>
      obtain ⟨k', v'⟩ := hd
      simp only [List.map_cons, List.nodup_cons] at h
      by_cases hk : k' = k
      · subst hk
        simp only [hmInsert, if_true, List.map_cons, List.nodup_cons]
        exact ⟨h.1, h.2⟩
      · simp only [hmInsert, hk, if_false, List.map_cons, List.nodup_cons]
        refine ⟨?_, ih h.2⟩
        intro hmem
        simp only [List.mem_map] at hmem
        obtain ⟨p, hp, hpk⟩ := hmem
        rcases hmInsert_mem_or hp with h1 | h1
        · exact h.1 (List.mem_map.mpr ⟨p, h1, hpk⟩)
        · subst h1
          exact hk hpk.symm

theorem mem_iff_hmGet {α : Type} (adj : List (String × α))
    (hnd : (adj.map Prod.fst).Nodup) (k : String) (v : α) :
    (k, v) ∈ adj ↔ hmGet adj k = some v := by
  induction adj with
  | nil => simp [hmGet]
  | cons hd tl ih =>
      obtain ⟨k', v'⟩ := hd
      simp only [List.map_cons, List.nodup_cons] at hnd
      by_cases hk : k' = k
      · subst hk
        simp only [hmGet, if_true, List.mem_cons]
        constructor
        · rintro (h1 | h1)
          · simp only [Prod.mk.injEq] at h1
            simp [h1.2]
          · exact absurd (List.mem_map.mpr ⟨(k', v), h1, rfl⟩) hnd.1
        · intro h1
          left
          simpa [Prod.ext_iff] using h1.symm
      · simp only [hmGet, hk, if_false, List.mem_cons]
        rw [← ih hnd.2]
        constructor
        · rintro (h1 | h1)
          · exact absurd (congrArg Prod.fst h1).symm hk
          · exact h1
        · intro h1
          right
          exact h1

theorem hmGet_some_filter_ne {α : Type} (adj : List (String × α)) (k : String)
    (v : α) (h : hmGet adj k = some v) :
    adj.filter (fun p => decide (p.1 = k)) ≠ [] := by
  induction adj with
  | nil => simp [hmGet] at h
  | cons hd tl ih =>
      obtain ⟨k', v'⟩ := hd
      by_cases hk : k' = k
      · simp [List.filter_cons, hk]
      · simp only [hmGet, hk, if_false] at h
        rw [List.filter_cons]
        simp only [hk, decide_False, if_false]
        exact ih h

theorem hmGet_foldl_adjacency_append (edges : List OptaEdge)
    (adj : List (String × List String)) (id : String) :
    hmGet (edges.foldl adjacency_append adj) id =
      if hmGet adj id = none ∧
          edges.filter (fun e => decide (e.«from» = id)) = [] then none
      else some ((hmGet adj id).getD [] ++
        (edges.filter (fun e => decide (e.«from» = id))).map
          (fun e => e.«to»)) := by
  induction edges generalizing adj with
  | nil =>
      rcases h : hmGet adj id with _ | v <;> simp [h]
  | cons e rest ih =>
      simp only [List.foldl_cons, List.filter_cons]
      by_cases hf : e.«from» = id
      · have hstep : hmGet (adjacency_append adj e) id =
            some ((hmGet adj id).getD [] ++ [e.«to»]) := by
          unfold adjacency_append
          rw [hf]
          rcases hg : hmGet adj id with _ | v
          · rw [hmGet_hmInsert_self]
            simp
          · rw [hmGet_hmInsert_self]
            simp
        rw [ih, hstep]
        simp [hf]
      · have hstep : hmGet (adjacency_append adj e) id = hmGet adj id := by
          unfold adjacency_append
          rcases hg : hmGet adj e.«from» with _ | v <;>
            exact hmGet_hmInsert_ne _ _ _ _ hf
        rw [ih, hstep]
        simp [hf]

theorem hmGet_build_adjacency_map (m : OptaModel) (id : String)
    (hid : id ∈ m.nodes.map (fun n => n.id)) :
    hmGet (build_adjacency_map m) id =
      some ((m.edges.filter (fun e => decide (e.«from» = id))).map
        (fun e => e.«to»)) := by
  unfold build_adjacency_map
  rw [hmGet_foldl_adjacency_append]
  have h0 : hmGet (m.nodes.foldl
      (fun adj n => hmInsert adj n.id ([] : List String)) []) id =
      some [] := by
    have h := hmGet_foldl_insert (fun n : OptaNode => n.id)
      (fun _ : OptaNode => ([] : List String)) m.nodes [] id
    obtain ⟨node, hnode, hnid⟩ := List.mem_map.mp hid
    have hfil : node ∈ m.nodes.filter (fun n => decide (n.id = id)) :=
      List.mem_filter.mpr ⟨hnode, by simp [hnid]⟩
    have hne := List.ne_nil_of_mem hfil
    obtain ⟨q, hq⟩ := Option.isSome_iff_exists.mp
      (List.getLast?_isSome.mpr hne)
    rw [h, hq]
  rw [h0]
  simp

theorem sum_count_hmInsert_append (adj : List (String × List String))
    (k : String) (v : List String) (x : String) (id : String)
    (h : hmGet adj k = some v) :
    (((hmInsert adj k (v ++ [x])).map (fun p => p.2.count id)).sum : ℕ) =
      ((adj.map (fun p => p.2.count id)).sum + [x].count id : ℕ) := by
  induction adj with
  | nil => simp [hmGet] at h
  | cons hd tl ih =>
      obtain ⟨k', v'⟩ := hd
      by_cases hk : k' = k
      · subst hk
        simp only [hmGet, if_true] at h
        obtain rfl : v' = v := Option.some.inj h
        simp only [hmInsert, if_true, List.map_cons, List.sum_cons,
          List.count_append]
        omega
      · simp only [hmGet, hk, if_false] at h
        simp only [hmInsert, hk, if_false, List.map_cons, List.sum_cons]
        rw [ih h]
        omega

theorem sum_count_hmInsert_new (adj : List (String × List String))
    (k : String) (x : String) (id : String) (h : hmGet adj k = none) :
    (((hmInsert adj k [x]).map (fun p => p.2.count id)).sum : ℕ) =
      ((adj.map (fun p => p.2.count id)).sum + [x].count id : ℕ) := by
  induction adj with
  | nil => simp [hmInsert]
  | cons hd tl ih =>
      obtain ⟨k', v'⟩ := hd
      by_cases hk : k' = k
      · simp [hmGet, hk] at h
      · simp only [hmGet, hk, if_false] at h
        simp only [hmInsert, hk, if_false, List.map_cons, List.sum_cons]
        rw [ih h]
        omega

theorem sum_count_adjacency_append (adj : List (String × List String))
    (e : OptaEdge) (id : String) :
    (((adjacency_append adj e).map (fun p => p.2.count id)).sum : ℕ) =
      ((adj.map (fun p => p.2.count id)).sum + [e.«to»].count id : ℕ) := by
  unfold adjacency_append
  rcases hg : hmGet adj e.«from» with _ | v
  · exact sum_count_hmInsert_new adj e.«from» e.«to» id hg
  · exact sum_count_hmInsert_append adj e.«from» v e.«to» id hg

theorem sum_count_foldl_append (edges : List OptaEdge)
    (adj : List (String × List String)) (id : String) :
    (((edges.foldl adjacency_append adj).map (fun p => p.2.count id)).sum : ℕ) =
      ((adj.map (fun p => p.2.count id)).sum +
        (edges.filter (fun e => decide (e.«to» = id))).length : ℕ) := by
  induction edges generalizing adj with
  | nil => simp
  | cons e rest ih =>
      simp only [List.foldl_cons, List.filter_cons]
      rw [ih, sum_count_adjacency_append]
      by_cases ht : e.«to» = id
      · have h1 : ([e.«to»].count id : ℕ) = 1 := by simp [ht]
        rw [h1]
        simp only [ht, decide_True, if_true, List.length_cons]
        omega
      · have h0 : ([e.«to»].count id : ℕ) = 0 := by
          simp [List.count_singleton', ht]
        rw [h0]
        simp only [ht, decide_False, Bool.false_eq_true, if_false]
        omega

theorem foldl_insert_nil_values (nodes : List OptaNode)
    (a0 : List (String × List String))
    (h : ∀ p ∈ a0, p.2 = ([] : List String)) :
    ∀ p ∈ nodes.foldl (fun adj n => hmInsert adj n.id ([] : List String)) a0,
      p.2 = [] := by
  induction nodes generalizing a0 with
  | nil => exact h
  | cons n rest ih =>
      simp only [List.foldl_cons]
      refine ih _ ?_
      intro p hp
      rcases hmInsert_mem_or hp with h1 | h1
      · exact h p h1
      · rw [h1]

theorem sum_count_of_nil_values (adj : List (String × List String))
    (h : ∀ p ∈ adj, p.2 = ([] : List String)) (id : String) :
    ((adj.map (fun p => p.2.count id)).sum : ℕ) = 0 := by
  induction adj with
  | nil => rfl
  | cons p rest ih =>
      simp only [List.map_cons, List.sum_cons]
      rw [h p (by simp), ih (fun q hq => h q (by simp [hq]))]
      rfl

theorem sum_count_build_adjacency_map (m : OptaModel) (id : String) :
    (((build_adjacency_map m).map (fun p => p.2.count id)).sum : ℕ) =
      inDegree m id := by
  unfold build_adjacency_map
  rw [sum_count_foldl_append]
  rw [sum_count_of_nil_values _
    (foldl_insert_nil_values m.nodes [] (by simp)) id]
  unfold inDegree
  omega

theorem hmGet_foldl_incr (ns : List String) (mm : List (String × ℕ))
    (id : String) :
    hmGet (ns.foldl in_degree_incr mm) id =
      if hmGet mm id = none ∧ ns.count id = 0 then none
      else some ((hmGet mm id).getD 0 + ns.count id) := by
  induction ns generalizing mm with
  | nil => rcases h : hmGet mm id with _ | d <;> simp [h]
  | cons nb rest ih =>
      simp only [List.foldl_cons]
      by_cases hnb : nb = id
      · subst hnb
        have hstep : hmGet (in_degree_incr mm nb) nb =
            some ((hmGet mm nb).getD 0 + 1) := by
          unfold in_degree_incr
          rcases hg : hmGet mm nb with _ | d
          · rw [hmGet_hmInsert_self]
            simp
          · rw [hmGet_hmInsert_self]
            simp
        rw [ih, hstep]
        have hcnt : (nb :: rest).count nb = rest.count nb + 1 := by
          simp [List.count_cons]
        rw [hcnt]
        simp only [Option.some.injEq, Option.getD_some, reduceCtorEq,
          false_and, if_false]
        have hne : ¬(rest.count nb + 1 = 0) := by omega
        rcases hg : hmGet mm nb with _ | d <;> simp [hg] <;> omega
      · have hstep : hmGet (in_degree_incr mm nb) id = hmGet mm id := by
          unfold in_degree_incr
          rcases hg : hmGet mm nb with _ | d <;>
            exact hmGet_hmInsert_ne _ _ _ _ hnb
        have hcnt : (nb :: rest).count id = rest.count id := by
          simp [List.count_cons, hnb]
        rw [ih, hstep, hcnt]

theorem hmGet_foldl_incr_outer (entries : List (String × List String))
    (mm : List (String × ℕ)) (id : String) :
    hmGet (entries.foldl (fun m p => p.2.foldl in_degree_incr m) mm) id =
      if hmGet mm id = none ∧
          ((entries.map (fun p => p.2.count id)).sum : ℕ) = 0 then none
      else some ((hmGet mm id).getD 0 +
        (entries.map (fun p => p.2.count id)).sum) := by
  induction entries generalizing mm with
  | nil => rcases h : hmGet mm id with _ | d <;> simp [h]
  | cons p rest ih =>
      simp only [List.foldl_cons, List.map_cons, List.sum_cons]
      rw [ih, hmGet_foldl_incr]
      rcases hg : hmGet mm id with _ | d
      · by_cases h2 : p.2.count id = 0
        · simp only [hg, h2, and_self, if_true]
          by_cases h3 : ((rest.map (fun p => p.2.count id)).sum : ℕ) = 0 <;>
            simp [h3]
        · simp only [hg, h2, and_false, if_false, Option.getD_none]
          have : ¬(p.2.count id + (rest.map (fun p => p.2.count id)).sum = 0) := by
            omega
          simp only [reduceCtorEq, false_and, if_false, this, and_false,
            Option.getD_some, Option.some.injEq]
          omega
      · simp only [hg, reduceCtorEq, false_and, if_false, Option.getD_some,
          Option.some.injEq]
        omega

theorem hmGet_indegree_init (adjacency : List (String × List String))
    (id : String)
    (hkey : adjacency.filter (fun p => decide (p.1 = id)) ≠ []) :
    hmGet (adjacency.foldl (fun m p => hmInsert m p.1 (0 : ℕ)) []) id =
      some 0 := by
  have h := hmGet_foldl_insert (fun p : String × List String => p.1)
    (fun _ : String × List String => (0 : ℕ)) adjacency [] id
  obtain ⟨q, hq⟩ := Option.isSome_iff_exists.mp
    (List.getLast?_isSome.mpr hkey)
  rw [h, hq]

theorem foldl_insert_keys_nodup {α β : Type} (f : β → String) (g : β → α)
    (l : List β) (m0 : List (String × α))
    (h : (m0.map Prod.fst).Nodup) :
    ((l.foldl (fun m p => hmInsert m (f p) (g p)) m0).map Prod.fst).Nodup := by
  induction l generalizing m0 with
  | nil => exact h
  | cons p rest ih =>
      simp only [List.foldl_cons]
      exact ih _ (hmInsert_keys_nodup _ _ _ h)

theorem adjacency_append_keys_nodup (adj : List (String × List String))
    (e : OptaEdge) (h : (adj.map Prod.fst).Nodup) :
    ((adjacency_append adj e).map Prod.fst).Nodup := by
  unfold adjacency_append
  rcases hg : hmGet adj e.«from» with _ | v <;>
    exact hmInsert_keys_nodup _ _ _ h

theorem build_adjacency_map_keys_nodup (m : OptaModel) :
    (((build_adjacency_map m).map Prod.fst)).Nodup := by
  unfold build_adjacency_map
  have h0 : ((m.nodes.foldl
      (fun adj n => hmInsert adj n.id ([] : List String)) []).map
        Prod.fst).Nodup :=
    foldl_insert_keys_nodup (fun n : OptaNode => n.id) (fun _ => []) m.nodes []
      (by simp)
  generalize hadj : m.nodes.foldl
    (fun adj n => hmInsert adj n.id ([] : List String)) [] = adj0 at h0 ⊢
  clear hadj
  induction m.edges generalizing adj0 with
  | nil => exact h0
  | cons e rest ih =>
      simp only [List.foldl_cons]
      exact ih _ (adjacency_append_keys_nodup _ _ h0)

theorem in_degree_incr_keys_nodup (mm : List (String × ℕ)) (nb : String)
    (h : (mm.map Prod.fst).Nodup) :
    ((in_degree_incr mm nb).map Prod.fst).Nodup := by
  unfold in_degree_incr
  rcases hg : hmGet mm nb with _ | d <;> exact hmInsert_keys_nodup _ _ _ h

theorem foldl_incr_keys_nodup (ns : List String) (mm : List (String × ℕ))
    (h : (mm.map Prod.fst).Nodup) :
    ((ns.foldl in_degree_incr mm).map Prod.fst).Nodup := by
  induction ns generalizing mm with
  | nil => exact h
  | cons nb rest ih =>
      simp only [List.foldl_cons]
      exact ih _ (in_degree_incr_keys_nodup _ _ h)

theorem foldl_incr_outer_keys_nodup (entries : List (String × List String))
    (mm : List (String × ℕ)) (h : (mm.map Prod.fst).Nodup) :
    ((entries.foldl (fun m p => p.2.foldl in_degree_incr m) mm).map
      Prod.fst).Nodup := by
  induction entries generalizing mm with
  | nil => exact h
  | cons p rest ih =>
      simp only [List.foldl_cons]
      exact ih _ (foldl_incr_keys_nodup _ _ h)

theorem hmGet_in_degree_map (m : OptaModel) (id : String)
    (hid : id ∈ m.nodes.map (fun n => n.id)) :
    hmGet (in_degree_map (build_adjacency_map m)) id =
      some (inDegree m id) := by
  unfold in_degree_map
  rw [hmGet_foldl_incr_outer]
  obtain ⟨outs, houts⟩ : ∃ outs,
      hmGet (build_adjacency_map m) id = some outs :=
    ⟨_, hmGet_build_adjacency_map m id hid⟩
  have hinit := hmGet_indegree_init (build_adjacency_map m) id
    (hmGet_some_filter_ne _ _ _ houts)
  rw [hinit, sum_count_build_adjacency_map]
  simp

theorem in_degree_map_keys_nodup (adjacency : List (String × List String)) :
    ((in_degree_map adjacency).map Prod.fst).Nodup := by
  unfold in_degree_map
  exact foldl_incr_outer_keys_nodup _ _
    (foldl_insert_keys_nodup (fun p : String × List String => p.1)
      (fun _ : String × List String => (0 : ℕ)) adjacency [] (by simp))

theorem mem_detect_bottlenecks (m : OptaModel) (t : ℕ) (id : String)
    (d : ℕ) (s : ℚ) (hid : id ∈ m.nodes.map (fun n => n.id)) :
    AntiPattern.Bottleneck id d s ∈
        detect_bottlenecks (build_adjacency_map m) t ↔
      d = inDegree m id ∧ t ≤ d ∧ s = (d : ℚ) / max (t : ℚ) 1 := by
  unfold detect_bottlenecks
  have hnd := in_degree_map_keys_nodup (build_adjacency_map m)
  have hIN := hmGet_in_degree_map m id hid
  constructor
  · intro hmem
    obtain ⟨p, hp, heq⟩ := List.mem_map.mp hmem
    obtain ⟨hpIN, hpt⟩ := List.mem_filter.mp hp
    simp only [AntiPattern.Bottleneck.injEq] at heq
    obtain ⟨h1, h2, h3⟩ := heq
    have hget : hmGet (in_degree_map (build_adjacency_map m)) p.1 =
        some p.2 := by
      rw [← mem_iff_hmGet _ hnd]
      exact hpIN
    rw [h1, hIN] at hget
    have hd : inDegree m id = p.2 := Option.some.inj hget
    have hpt' : t ≤ p.2 := by simpa using hpt
    subst h2
    exact ⟨hd.symm, hpt', h3.symm⟩
  · rintro ⟨rfl, h2, rfl⟩
    refine List.mem_map.mpr ⟨(id, inDegree m id), ?_, rfl⟩
    refine List.mem_filter.mpr ⟨?_, by simpa using h2⟩
    rw [mem_iff_hmGet _ hnd]
    exact hIN

theorem mem_detect_over_coupling (m : OptaModel) (t : ℕ) (id : String)
    (d : ℕ) (s : ℚ) (hid : id ∈ m.nodes.map (fun n => n.id)) :
    AntiPattern.OverCoupling id d s ∈
        detect_over_coupling (build_adjacency_map m) t ↔
      d = outDegree m id ∧ t ≤ d ∧ s = (d : ℚ) / max (t : ℚ) 1 := by
  unfold detect_over_coupling
  have hnd := build_adjacency_map_keys_nodup m
  have hOUT := hmGet_build_adjacency_map m id hid
  have hlen : ((m.edges.filter (fun e => decide (e.«from» = id))).map
      (fun e => e.«to»)).length = outDegree m id := by
    rw [List.length_map]
    rfl
  constructor
  · intro hmem
    obtain ⟨p, hp, heq⟩ := List.mem_map.mp hmem
    obtain ⟨hpadj, hpt⟩ := List.mem_filter.mp hp
    simp only [AntiPattern.OverCoupling.injEq] at heq
    obtain ⟨h1, h2, h3⟩ := heq
    have hget : hmGet (build_adjacency_map m) p.1 = some p.2 := by
      rw [← mem_iff_hmGet _ hnd]
      exact hpadj
    rw [h1, hOUT] at hget
    have hp2 : (m.edges.filter (fun e => decide (e.«from» = id))).map
        (fun e => e.«to») = p.2 := Option.some.inj hget
    have hd : p.2.length = outDegree m id := by
      rw [← hp2, hlen]
    have hpt' : t ≤ p.2.length := by simpa using hpt
    subst h2
    exact ⟨hd, hpt', h3.symm⟩
  · rintro ⟨rfl, h2, rfl⟩
    refine List.mem_map.mpr
      ⟨(id, (m.edges.filter (fun e => decide (e.«from» = id))).map
        (fun e => e.«to»)), ?_, ?_⟩
    · refine List.mem_filter.mpr ⟨?_, by simp [hlen, h2]⟩
      rw [mem_iff_hmGet _ hnd]
      exact hOUT
    · simp [hlen]

theorem hmGet_severityEntryMax_self (mm : List (String × ℚ)) (id : String)
    (v : ℚ) :
    (hmGet (severityEntryMax mm id v) id).getD 0 =
      max ((hmGet mm id).getD 0) v := by
  unfold severityEntryMax
  rcases hg : hmGet mm id with _ | cur
  · rw [hmGet_hmInsert_self]
    simp
  · rw [hmGet_hmInsert_self]
    simp

theorem hmGet_severityEntryMax_ne (mm : List (String × ℚ)) (id : String)
    (v : ℚ) (id' : String) (h : id ≠ id') :
    hmGet (severityEntryMax mm id v) id' = hmGet mm id' := by
  unfold severityEntryMax
  rcases hg : hmGet mm id with _ | cur <;>
    exact hmGet_hmInsert_ne _ _ _ _ h

theorem cycle_fold_severity (nodes : List String) (mm : List (String × ℚ))
    (id : String) :
    (hmGet (nodes.foldl (fun m node_id => severityEntryMax m node_id 1)
        mm) id).getD 0 =
      if id ∈ nodes then max ((hmGet mm id).getD 0) 1
      else (hmGet mm id).getD 0 := by
  induction nodes generalizing mm with
  | nil => simp
  | cons nid rest ih =>
      simp only [List.foldl_cons]
      rw [ih]
      by_cases hn : nid = id
      · subst hn
        by_cases hmem : nid ∈ rest
        · simp only [hmem, if_true, List.mem_cons, true_or,
            hmGet_severityEntryMax_self]
          rw [max_assoc, max_self]
        · simp only [hmem, if_false, List.mem_cons, true_or, if_true,
            hmGet_severityEntryMax_self]
      · rw [hmGet_severityEntryMax_ne _ _ _ _ hn]
        by_cases hmem : id ∈ rest
        · simp [hmem, Ne.symm hn]
        · simp [hmem, Ne.symm hn]

theorem severity_update_getD (mm : List (String × ℚ)) (pat : AntiPattern)
    (id : String) :
    (hmGet (severity_update mm pat) id).getD 0 =
      match patternTouch id pat with
      | some v => max ((hmGet mm id).getD 0) v
      | none => (hmGet mm id).getD 0 := by
  cases pat with
  | Cycle nodes =>
      simp only [severity_update, patternTouch]
      rw [cycle_fold_severity]
      by_cases hmem : id ∈ nodes <;> simp [hmem]
  | Bottleneck nid d sev =>
      simp only [severity_update, patternTouch]
      by_cases hn : nid = id
      · subst hn
        simp [hmGet_severityEntryMax_self]
      · rw [hmGet_severityEntryMax_ne _ _ _ _ hn]
        simp [hn]
  | IsolatedComponent nid =>
      simp only [severity_update, patternTouch]
      by_cases hn : nid = id
      · subst hn
        simp [hmGet_severityEntryMax_self]
      · rw [hmGet_severityEntryMax_ne _ _ _ _ hn]
        simp [hn]
  | OverCoupling nid d sev =>
      simp only [severity_update, patternTouch]
      by_cases hn : nid = id
      · subst hn
        simp [hmGet_severityEntryMax_self]
      · rw [hmGet_severityEntryMax_ne _ _ _ _ hn]
        simp [hn]

theorem build_severity_map_fold (patterns : List AntiPattern)
    (mm : List (String × ℚ)) (id : String) :
    (hmGet (patterns.foldl severity_update mm) id).getD 0 =
      (patterns.filterMap (patternTouch id)).foldl max
        ((hmGet mm id).getD 0) := by
  induction patterns generalizing mm with
  | nil => simp
  | cons pat rest ih =>
      simp only [List.foldl_cons, List.filterMap_cons]
      rw [ih, severity_update_getD]
      rcases ht : patternTouch id pat with _ | v <;> simp

theorem foldl_max_all_eq (l : List ℚ) (c : ℚ) : ∀ (a : ℚ), l ≠ [] →
    (∀ x ∈ l, x = c) → l.foldl max a = max a c := by
  induction l with
  | nil =>
      intro a hl _
      exact absurd rfl hl
  | cons x rest ih =>
      intro a _ h
      have hx : x = c := h x (by simp)
      rw [List.foldl_cons, hx]
      by_cases hr : rest = []
      · subst hr
        rfl
      · rw [ih (max a c) hr (fun y hy => h y (by simp [hy]))]
        rw [max_assoc, max_self]

/-! ## Claim theorems -/

/-- **C1, counterexample.** On the graph with the two disjoint cycles
`a ↔ b` and `c ↔ d`, one detection pass reports *two* `Cycle` patterns (one
per DFS tree), refuting "at most one Cycle pattern per detection pass, even
when the graph contains multiple disjoint cycles". -/
theorem c1_counterexample :
    detect_cycles twoDisjointCyclesModel
        (build_adjacency_map twoDisjointCyclesModel) =
      [AntiPattern.Cycle ["b", "a"], AntiPattern.Cycle ["d", "c"]]
    ∧ ¬ (detect_cycles twoDisjointCyclesModel
          (build_adjacency_map twoDisjointCyclesModel)).length ≤ 1 := by
  constructor
  · decide
  · decide

/-- **C1 (amended).** The first back-edge terminates only the DFS rooted at
the current White node, yielding one reconstructed cycle for that root; the
detection pass then continues with the remaining unvisited nodes, so a pass
reports at most one `Cycle` pattern per root — hence at most `node_count`
many — and disjoint cycles in separate DFS trees are each reported (two
disjoint 2-cycles yield exactly two `Cycle` patterns). -/
theorem c1_cycle_per_dfs_root :
    (∀ (m : OptaModel) (adjacency : List (String × List String)),
      (detect_cycles m adjacency).length ≤ m.nodes.length)
    ∧ detect_cycles twoDisjointCyclesModel
        (build_adjacency_map twoDisjointCyclesModel) =
      [AntiPattern.Cycle ["b", "a"], AntiPattern.Cycle ["d", "c"]] := by
  constructor
  · intro m adjacency
    have := detect_cycles_fold_len (m.nodes.length + 1) adjacency m.nodes
      ((m.nodes.foldl (fun c n => hmInsert c n.id Color.White) [],
        m.nodes.foldl (fun p n => hmInsert p n.id (none : Option String)) []), [])
    simpa [detect_cycles] using this
  · decide

/-- **C8.** Deserialising the anti-pattern configuration in the JNI layer:
a threshold below 1 is indeed rejected before detection runs, but an absent
`over_coupling_threshold` takes 8, not the documented default 7 of
`AntiPatternConfig::default()` — the code contradicts its own documented
default. -/
theorem c8_jni_default_mismatch :
    jni_parse_config ⟨none, none⟩ =
      Except.ok ⟨5, 8, true⟩
    ∧ AntiPatternConfig.default.over_coupling_threshold = 7
    ∧ (8 : ℕ) ≠ 7
    ∧ jni_parse_config ⟨some (some 0), none⟩ =
      Except.error "Invalid bottleneck_threshold: 0 (must be >= 1)"
    ∧ jni_parse_config ⟨none, some (some 0)⟩ =
      Except.error "Invalid over_coupling_threshold: 0 (must be >= 1)" := by
  refine ⟨rfl, rfl, by decide, ?_, ?_⟩ <;> rfl

/-- **C3.** `optimize_layout` fails with the empty-model error exactly when the
model has zero nodes, fails with the matrix-not-built error exactly when it is
non-empty with an absent adjacency matrix, and otherwise succeeds; execution
is all-or-none: both failures return the model untouched, and on success every
node's position is set. -/
theorem c3_optimize_layout_all_or_none (opt : OptaOptimizer)
    (forceF : List (ℚ × ℚ) → ℕ → ℚ × ℚ) (init : ℕ → ℚ × ℚ) (m : OptaModel) :
    (m.node_count = 0 →
      optimize_layout opt forceF init m =
        (Except.error "Cannot optimize empty model", m))
    ∧ (m.node_count ≠ 0 → m.adjacency_matrix = none →
      optimize_layout opt forceF init m =
        (Except.error
          "Adjacency matrix not built. Call build_adjacency_matrix() first", m))
    ∧ (m.node_count ≠ 0 → ∀ mat, m.adjacency_matrix = some mat →
      (optimize_layout opt forceF init m).1 = Except.ok ()
      ∧ ∀ node ∈ (optimize_layout opt forceF init m).2.nodes,
          node.position.isSome) := by
  refine ⟨fun h0 => by simp [optimize_layout, h0], fun h0 hnone => ?_,
    fun h0 mat hmat => ?_⟩
  · simp [optimize_layout, h0, hnone]
  · have hres : optimize_layout opt forceF init m =
        (Except.ok (), apply_positions_to_model m
          ((List.range opt.iterations).foldl
            (fun pos iteration => optimize_step opt forceF iteration pos)
            (initialize_positions m.node_count init))) := by
      simp [optimize_layout, h0, hmat]
    refine ⟨by simp [hres], ?_⟩
    intro node hnode
    rw [hres] at hnode
    have hlen : ((List.range opt.iterations).foldl
        (fun pos iteration => optimize_step opt forceF iteration pos)
        (initialize_positions m.node_count init)).length = m.nodes.length := by
      rw [optimize_fold_length]
      simp [initialize_positions, OptaModel.node_count]
    obtain ⟨p, -, hp⟩ := apply_positions_to_model_mem m _ hlen node hnode
    simp [hp]

/-- **C3, witness.** The success branch evaluated on the one-node model with a
built adjacency matrix. -/
theorem c3_witness :
    (optimize_layout ⟨1, 1, 10⟩ (fun _ _ => (7, -3)) (fun _ => (100, 5))
      singleNodeModel.build_adjacency_matrix).1 = Except.ok ()
    ∧ ∀ node ∈ (optimize_layout ⟨1, 1, 10⟩ (fun _ _ => (7, -3))
        (fun _ => (100, 5)) singleNodeModel.build_adjacency_matrix).2.nodes,
        node.position.isSome :=
  (c3_optimize_layout_all_or_none ⟨1, 1, 10⟩ (fun _ _ => (7, -3))
    (fun _ => (100, 5)) singleNodeModel.build_adjacency_matrix).2.2
    (by decide) [[0]] (by decide)

/-- **C4.** For every model with at least one node and a built adjacency
matrix, every force field and every random initialisation, running the
optimizer for at least one iteration leaves every node with a position whose
coordinates both lie in `[0, sqrt(A)]` (positions are clamped after every
iteration, so the final iteration's clamp bounds the result). -/
theorem c4_positions_clamped (opt : OptaOptimizer)
    (forceF : List (ℚ × ℚ) → ℕ → ℚ × ℚ) (init : ℕ → ℚ × ℚ) (m : OptaModel)
    (mat : List (List ℚ)) (hiter : 1 ≤ opt.iterations)
    (hA : 0 ≤ opt.sqrt_area) (h0 : m.node_count ≠ 0)
    (hmat : m.adjacency_matrix = some mat) :
    ∀ node ∈ (optimize_layout opt forceF init m).2.nodes,
      ∃ p : ℚ × ℚ, node.position = some p ∧
        0 ≤ p.1 ∧ p.1 ≤ opt.sqrt_area ∧ 0 ≤ p.2 ∧ p.2 ≤ opt.sqrt_area := by
  intro node hnode
  have hres : (optimize_layout opt forceF init m).2 =
      apply_positions_to_model m
        ((List.range opt.iterations).foldl
          (fun pos iteration => optimize_step opt forceF iteration pos)
          (initialize_positions m.node_count init)) := by
    simp [optimize_layout, h0, hmat]
  rw [hres] at hnode
  have hlen : ((List.range opt.iterations).foldl
      (fun pos iteration => optimize_step opt forceF iteration pos)
      (initialize_positions m.node_count init)).length = m.nodes.length := by
    rw [optimize_fold_length]
    simp [initialize_positions, OptaModel.node_count]
  obtain ⟨p, hpmem, hp⟩ := apply_positions_to_model_mem m _ hlen node hnode
  refine ⟨p, hp, ?_⟩
  obtain ⟨k, hk⟩ : ∃ k, opt.iterations = k + 1 :=
    ⟨opt.iterations - 1, by omega⟩
  rw [hk, List.range_succ, List.foldl_append] at hpmem
  simp only [List.foldl_cons, List.foldl_nil] at hpmem
  exact clamp_positions_mem opt _ hA p hpmem

/-- **C4, witness.** Evaluated on the one-node model with a built matrix, one
iteration, a force field pushing far past the clamp range: the node ends up
at the clamped corner `(10, 0)`, inside `[0, sqrt(A)]²`. -/
theorem c4_witness :
    ∃ p : ℚ × ℚ,
      (OptaNode.set_position (OptaNode.new "n" "N" NodeType.Component)
        10 0).position = some p ∧
      0 ≤ p.1 ∧ p.1 ≤ (10 : ℚ) ∧ 0 ≤ p.2 ∧ p.2 ≤ (10 : ℚ) :=
  c4_positions_clamped ⟨1, 1, 10⟩ (fun _ _ => (1000, -1000))
    (fun _ => (100, 5)) singleNodeModel.build_adjacency_matrix [[0]]
    (by decide) (by norm_num) (by decide) (by rfl)
    (OptaNode.set_position (OptaNode.new "n" "N" NodeType.Component) 10 0)
    (by norm_num [optimize_layout, singleNodeModel,
      OptaModel.build_adjacency_matrix, initialize_positions, optimize_step,
      clamp_positions, apply_positions_to_model, List.range_succ,
      OptaModel.node_count, max_def, min_def, OptaNode.set_position,
      OptaNode.new])

/-- **C5.** For every input string `parse_c4_dsl` returns `Ok`: non-matching
lines contribute nothing and raise no diagnostic, and the per-capture error
branches are unreachable because every match carries its mandatory capture
groups 1 and 2. -/
theorem c5_parse_never_fails (input : String) :
    ∃ m, parse_c4_dsl input = Except.ok m := by
  obtain ⟨m1, h1, -, -⟩ := addContainers_spec NodeType.Container
    "Missing container ID" "Missing container name"
    (regexCaptures (matchDecl "container" true) input) OptaModel.new
    (regexCaptures_decl_groups "container" true input)
  obtain ⟨m2, h2, -, -⟩ := addContainers_spec NodeType.Component
    "Missing component ID" "Missing component name"
    (regexCaptures (matchDecl "component" true) input) m1
    (regexCaptures_decl_groups "component" true input)
  obtain ⟨m3, h3, -, -⟩ := addPlainNodes_spec NodeType.Person
    "Missing person ID" "Missing person name"
    (regexCaptures (matchDecl "person" false) input) m2
    (regexCaptures_decl_groups "person" false input)
  obtain ⟨m4, h4, -, -⟩ := addPlainNodes_spec NodeType.System
    "Missing system ID" "Missing system name"
    (regexCaptures (matchDecl "system" false) input) m3
    (regexCaptures_decl_groups "system" false input)
  obtain ⟨m5, h5, -, -⟩ := addRelationships_spec
    (regexCaptures matchRelationship input) m4
    (regexCaptures_rel_groups input)
  exact ⟨m5, by simp [parse_c4_dsl, except_bind_ok, h1, h2, h3, h4, h5]⟩

/-- **C2.** The parser appends nodes in category-then-occurrence order (all
container matches, then components, then persons, then systems, each in
textual order), then all relationship edges; on the concrete scenario
`container A "A"` / `container B "B"` / `A -> B` it yields two nodes in
insertion order `[A, B]`, one edge of weight 1, and after
`build_adjacency_matrix` the cell `[0][1]` is 1 and `[1][0]` is 0. -/
theorem c2_parser_category_order :
    (∀ (input : String) (m : OptaModel), parse_c4_dsl input = Except.ok m →
      m.nodes =
        (regexCaptures (matchDecl "container" true) input).map
          (nodeOfCap NodeType.Container)
        ++ (regexCaptures (matchDecl "component" true) input).map
          (nodeOfCap NodeType.Component)
        ++ (regexCaptures (matchDecl "person" false) input).map
          (plainNodeOfCap NodeType.Person)
        ++ (regexCaptures (matchDecl "system" false) input).map
          (plainNodeOfCap NodeType.System)
      ∧ m.edges = (regexCaptures matchRelationship input).map edgeOfCap)
    ∧ parse_c4_dsl scenarioInput = Except.ok scenarioModel
    ∧ scenarioModel.node_count = 2
    ∧ scenarioModel.nodes.map (fun n => n.id) = ["A", "B"]
    ∧ scenarioModel.edge_count = 1
    ∧ scenarioModel.edges.map (fun e => e.weight) = [1]
    ∧ (∃ mat, (scenarioModel.build_adjacency_matrix).adjacency_matrix = some mat
        ∧ getCell mat 0 1 = 1 ∧ getCell mat 1 0 = 0) := by
  refine ⟨?_, by rfl, by decide, by decide, by decide, by decide,
    ⟨[[0, 1], [0, 0]], by decide, by decide, by decide⟩⟩
  intro input m hm
  obtain ⟨m1, h1, hn1, he1⟩ := addContainers_spec NodeType.Container
    "Missing container ID" "Missing container name"
    (regexCaptures (matchDecl "container" true) input) OptaModel.new
    (regexCaptures_decl_groups "container" true input)
  obtain ⟨m2, h2, hn2, he2⟩ := addContainers_spec NodeType.Component
    "Missing component ID" "Missing component name"
    (regexCaptures (matchDecl "component" true) input) m1
    (regexCaptures_decl_groups "component" true input)
  obtain ⟨m3, h3, hn3, he3⟩ := addPlainNodes_spec NodeType.Person
    "Missing person ID" "Missing person name"
    (regexCaptures (matchDecl "person" false) input) m2
    (regexCaptures_decl_groups "person" false input)
  obtain ⟨m4, h4, hn4, he4⟩ := addPlainNodes_spec NodeType.System
    "Missing system ID" "Missing system name"
    (regexCaptures (matchDecl "system" false) input) m3
    (regexCaptures_decl_groups "system" false input)
  obtain ⟨m5, h5, he5, hn5⟩ := addRelationships_spec
    (regexCaptures matchRelationship input) m4
    (regexCaptures_rel_groups input)
  have hm5 : parse_c4_dsl input = Except.ok m5 := by
    simp [parse_c4_dsl, except_bind_ok, h1, h2, h3, h4, h5]
  rw [hm] at hm5
  obtain rfl : m = m5 := Except.ok.inj hm5
  constructor
  · rw [hn5, hn4, hn3, hn2, hn1]
    simp [OptaModel.new]
  · rw [he5, he4, he3, he2, he1]
    simp [OptaModel.new]

/-- **C2, witness.** The category-order characterisation applied to the
concrete scenario input. -/
theorem c2_witness :
    scenarioModel.nodes =
      (regexCaptures (matchDecl "container" true) scenarioInput).map
        (nodeOfCap NodeType.Container)
      ++ (regexCaptures (matchDecl "component" true) scenarioInput).map
        (nodeOfCap NodeType.Component)
      ++ (regexCaptures (matchDecl "person" false) scenarioInput).map
        (plainNodeOfCap NodeType.Person)
      ++ (regexCaptures (matchDecl "system" false) scenarioInput).map
        (plainNodeOfCap NodeType.System)
    ∧ scenarioModel.edges =
      (regexCaptures matchRelationship scenarioInput).map edgeOfCap :=
  c2_parser_category_order.1 scenarioInput scenarioModel (by rfl)

theorem find?_eq_filter_head? {α : Type} (l : List α) (p : α → Bool) :
    l.find? p = (l.filter p).head? := by
  induction l with
  | nil => rfl
  | cons a t ih =>
      rw [List.find?_cons, List.filter_cons]
      by_cases h : p a
      · simp [h]
      · simp only [h]
        simpa using ih

/-- **C6.** `build_adjacency_matrix` leaves the cached matrix absent exactly
for a zero-node model; otherwise it caches an n×n matrix (n the node count at
build time) in which, for pairwise distinct ids, cell `[i][j]` is the weight
of the last edge in insertion order whose endpoints resolve to insertion
indices `i` and `j`, and 0 everywhere else — edges with an endpoint matching
no node write nothing. -/
theorem c6_adjacency_matrix_cells (m : OptaModel) :
    (m.nodes = [] → (m.build_adjacency_matrix).adjacency_matrix = none)
    ∧ (m.nodes ≠ [] → (m.nodes.map (fun n => n.id)).Nodup →
        ∃ mat, (m.build_adjacency_matrix).adjacency_matrix = some mat
          ∧ mat.length = m.nodes.length
          ∧ (∀ row ∈ mat, row.length = m.nodes.length)
          ∧ ∀ i j, i < m.nodes.length → j < m.nodes.length →
              getCell mat i j =
                match (m.edges.filter (fun e =>
                    hasIdAt m.nodes e.«from» i && hasIdAt m.nodes e.«to» j)).getLast? with
                | some e => e.weight
                | none => 0) := by
  constructor
  · intro h0
    simp [OptaModel.build_adjacency_matrix, h0]
  · intro h0 hnd
    have hne : ¬ m.nodes.length = 0 := by
      simpa [List.length_eq_zero] using h0
    refine ⟨m.edges.foldl (adjacency_write (node_index_map m.nodes))
      (List.replicate m.nodes.length (List.replicate m.nodes.length 0)),
      ?_, ?_, ?_, ?_⟩
    · simp [OptaModel.build_adjacency_matrix, hne]
    · rw [foldl_write_length, List.length_replicate]
    · exact foldl_write_rows _ _ _ _ (List.length_replicate _ _)
        (fun row hrow => by
          rw [List.eq_of_mem_replicate hrow, List.length_replicate])
    · intro i j hi hj
      rw [getCell_foldl_write (node_index_map m.nodes) m.nodes.length m.edges _
        (List.length_replicate _ _)
        (fun row hrow => by
          rw [List.eq_of_mem_replicate hrow, List.length_replicate]) i j hi hj]
      have hfeq : m.edges.filter (fun e =>
          decide (hmGet (node_index_map m.nodes) e.«from» = some i ∧
            hmGet (node_index_map m.nodes) e.«to» = some j)) =
          m.edges.filter (fun e =>
            hasIdAt m.nodes e.«from» i && hasIdAt m.nodes e.«to» j) := by
        apply List.filter_congr
        intro e he
        have h1 := node_index_map_nodup_iff m.nodes hnd e.«from» i
        have h2 := node_index_map_nodup_iff m.nodes hnd e.«to» j
        rcases hb1 : hasIdAt m.nodes e.«from» i <;>
          rcases hb2 : hasIdAt m.nodes e.«to» j <;>
            simp_all
      rw [hfeq]
      cases hL : (m.edges.filter (fun e =>
          hasIdAt m.nodes e.«from» i && hasIdAt m.nodes e.«to» j)).getLast?
      · exact getCell_replicate_zero _ _ _
      · rfl

/-- **C6, witness.** The cell characterisation evaluated on the parsed
two-container scenario model. -/
theorem c6_witness :
    ∃ mat, (scenarioModel.build_adjacency_matrix).adjacency_matrix = some mat
      ∧ mat.length = scenarioModel.nodes.length
      ∧ (∀ row ∈ mat, row.length = scenarioModel.nodes.length)
      ∧ ∀ i j, i < scenarioModel.nodes.length →
          j < scenarioModel.nodes.length →
          getCell mat i j =
            match (scenarioModel.edges.filter (fun e =>
                hasIdAt scenarioModel.nodes e.«from» i &&
                  hasIdAt scenarioModel.nodes e.«to» j)).getLast? with
            | some e => e.weight
            | none => 0 :=
  (c6_adjacency_matrix_cells scenarioModel).2 (by decide) (by decide)

/-- **C10.** When several nodes share an id, `build_adjacency_matrix`'s index
map resolves the id to the insertion index of the *last* node bearing it
(every edge endpoint naming it contributes at that row/column), whereas
`find_node` returns the *first* node bearing it; on the concrete model with
two nodes named `x` the matrix write for edge `x → b` lands in row 1, not
row 0. -/
theorem c10_duplicate_id_resolution :
    (∀ (nodes : List OptaNode) (id : String),
      hmGet (node_index_map nodes) id =
        ((nodes.enum.filter (fun p => decide (p.2.id = id))).getLast?).map
          Prod.fst)
    ∧ (∀ (m : OptaModel) (id : String),
        m.find_node id = (m.nodes.filter (fun n => decide (n.id = id))).head?)
    ∧ hmGet (node_index_map duplicateIdModel.nodes) "x" = some 1
    ∧ duplicateIdModel.find_node "x" =
        some (OptaNode.new "x" "First X" NodeType.Container)
    ∧ (duplicateIdModel.build_adjacency_matrix).adjacency_matrix =
        some [[0, 0, 0], [0, 0, 1], [0, 0, 0]] := by
  refine ⟨node_index_map_char, ?_, by decide, by decide, by decide⟩
  intro m id
  exact find?_eq_filter_head? m.nodes _

/-- **C7, counterexample.** With `bottleneck_threshold = 0`, a node whose
in-degree (0) equals the threshold exactly is reported with severity
`0 / max(0,1) = 0`, which is not `≥ 1.0` — refuting "severity ≥ 1.0 when the
in-degree equals the threshold exactly" in the threshold-0 corner. -/
theorem c7_counterexample :
    detect_bottlenecks (build_adjacency_map singleNodeModel) 0 =
      [AntiPattern.Bottleneck "n" 0 ((0 : ℚ) / max (0 : ℚ) 1)]
    ∧ inDegree singleNodeModel "n" = 0
    ∧ (0 : ℚ) / max (0 : ℚ) 1 = 0
    ∧ ¬ (1 : ℚ) ≤ (0 : ℚ) / max (0 : ℚ) 1 := by
  refine ⟨by rfl, by decide, by norm_num, by norm_num⟩

/-- **C7 (amended).** A node is reported as Bottleneck exactly when its
in-degree (count of edges terminating at it) is at least
`bottleneck_threshold`, with severity `in_degree / max(threshold, 1)`, and
analogously as OverCoupling for out-degree and `over_coupling_threshold`;
when the threshold is at least 1 and the degree equals it exactly the
severity is exactly 1.0 (hence ≥ 1.0) — for threshold 0, an equal (zero)
degree yields severity 0. -/
theorem c7_degree_thresholds :
    (∀ (m : OptaModel) (t : ℕ) (id : String),
      id ∈ m.nodes.map (fun n => n.id) →
        (∀ d s, AntiPattern.Bottleneck id d s ∈
            detect_bottlenecks (build_adjacency_map m) t ↔
          d = inDegree m id ∧ t ≤ d ∧ s = (d : ℚ) / max (t : ℚ) 1)
        ∧ (∀ d s, AntiPattern.OverCoupling id d s ∈
            detect_over_coupling (build_adjacency_map m) t ↔
          d = outDegree m id ∧ t ≤ d ∧ s = (d : ℚ) / max (t : ℚ) 1))
    ∧ (∀ t : ℕ, 1 ≤ t → ((t : ℚ) / max (t : ℚ) 1) = 1) := by
  refine ⟨fun m t id hid =>
    ⟨fun d s => mem_detect_bottlenecks m t id d s hid,
     fun d s => mem_detect_over_coupling m t id d s hid⟩, ?_⟩
  intro t ht
  have h1 : (1 : ℚ) ≤ (t : ℚ) := by exact_mod_cast ht
  rw [max_eq_left h1]
  exact div_self (ne_of_gt (lt_of_lt_of_le one_pos h1))

/-- **C7, witness.** The Bottleneck membership characterisation applied at
threshold 1 to node `a` of the two-cycle graph (in-degree 1). -/
theorem c7_witness :
    AntiPattern.Bottleneck "a" 1 ((1 : ℚ) / max (1 : ℚ) 1) ∈
      detect_bottlenecks (build_adjacency_map twoDisjointCyclesModel) 1 :=
  ((c7_degree_thresholds.1 twoDisjointCyclesModel 1 "a" (by decide)).1 1
    ((1 : ℚ) / max (1 : ℚ) 1)).mpr ⟨by decide, by decide, rfl⟩

/-- **C9, counterexample.** A node whose only detected pattern is
`IsolatedComponent` gets severity 0.3, and `severity_to_color` puts 0.3 in
the `≥ 0.3` medium band (`#ffcc44`), not the low/isolated-gray band
(`#cccccc`) the claim names. -/
theorem c9_counterexample :
    detect_anti_patterns singleNodeModel AntiPatternConfig.default =
      [AntiPattern.IsolatedComponent "n"]
    ∧ (hmGet (build_severity_map [AntiPattern.IsolatedComponent "n"])
        "n").getD 0 = 3/10
    ∧ severity_to_color (3/10) = "#ffcc44"
    ∧ "#ffcc44" ≠ "#cccccc" := by
  refine ⟨by decide, ?_, ?_, by decide⟩
  · norm_num [build_severity_map, severity_update, severityEntryMax, hmGet,
      hmInsert]
  · norm_num [severity_to_color]

/-- **C9 (amended).** Every node renders with the shape determined by its
type (System→box3d, Container→component, Component→box, Person→ellipse) and
a fill colour chosen from the maximum severity across all detected patterns
touching it via the fixed bands; a node whose only detected pattern is
`IsolatedComponent` has severity 0.3, which falls in the `≥ 0.3` medium band
(`#ffcc44`), and renders with a dashed outline. -/
theorem c9_severity_rendering :
    (∀ (patterns : List AntiPattern) (id : String),
      (hmGet (build_severity_map patterns) id).getD 0 =
        maxSeverity patterns id)
    ∧ (node_type_to_shape NodeType.System = "box3d"
       ∧ node_type_to_shape NodeType.Container = "component"
       ∧ node_type_to_shape NodeType.Component = "box"
       ∧ node_type_to_shape NodeType.Person = "ellipse")
    ∧ (∀ (severity_map : List (String × ℚ)) (node : OptaNode),
        ∃ rest, dotNodeStatement severity_map node =
          "  \"" ++ node.id ++ "\" [label=\"" ++ node.name ++
            "\", fillcolor=\"" ++
            severity_to_color ((hmGet severity_map node.id).getD 0) ++
            "\", shape=" ++ node_type_to_shape node.node_type ++
            ", style=\"" ++
            dotNodeStyle ((hmGet severity_map node.id).getD 0) ++
            "\"" ++ rest)
    ∧ (∀ (patterns : List AntiPattern) (id : String),
        (∃ p ∈ patterns, patternTouch id p ≠ none) →
        (∀ p ∈ patterns, patternTouch id p ≠ none →
          p = AntiPattern.IsolatedComponent id) →
        severity_to_color
            ((hmGet (build_severity_map patterns) id).getD 0) = "#ffcc44"
          ∧ dotNodeStyle
            ((hmGet (build_severity_map patterns) id).getD 0) =
              "filled,dashed") := by
  refine ⟨?_, ⟨rfl, rfl, rfl, rfl⟩, ?_, ?_⟩
  · intro patterns id
    unfold build_severity_map maxSeverity
    rw [build_severity_map_fold]
    rfl
  · intro severity_map node
    exact ⟨dotNodeSuffix ((hmGet severity_map node.id).getD 0) node.position,
      rfl⟩
  · intro patterns id hex hall
    have hsev : (hmGet (build_severity_map patterns) id).getD 0 = 3/10 := by
      unfold build_severity_map
      rw [build_severity_map_fold]
      have hne : patterns.filterMap (patternTouch id) ≠ [] := by
        obtain ⟨p, hp, hpt⟩ := hex
        obtain ⟨v, hv⟩ := Option.ne_none_iff_exists'.mp hpt
        exact List.ne_nil_of_mem (List.mem_filterMap.mpr ⟨p, hp, hv⟩)
      have hallv : ∀ v ∈ patterns.filterMap (patternTouch id), v = 3/10 := by
        intro v hv
        obtain ⟨p, hp, hpt⟩ := List.mem_filterMap.mp hv
        have hpiso := hall p hp (by simp [hpt])
        rw [hpiso] at hpt
        simp only [patternTouch, if_pos rfl] at hpt
        exact (Option.some.inj hpt).symm
      rw [foldl_max_all_eq _ (3/10) _ hne hallv]
      simp [hmGet]
      norm_num
    rw [hsev]
    constructor
    · norm_num [severity_to_color]
    · norm_num [dotNodeStyle]

/-- **C9, witness.** The isolated-only colouring applied to the singleton
pattern list `[IsolatedComponent "n"]`. -/
theorem c9_witness :
    severity_to_color
        ((hmGet (build_severity_map [AntiPattern.IsolatedComponent "n"])
          "n").getD 0) = "#ffcc44"
      ∧ dotNodeStyle
        ((hmGet (build_severity_map [AntiPattern.IsolatedComponent "n"])
          "n").getD 0) = "filled,dashed" :=
  c9_severity_rendering.2.2.2 [AntiPattern.IsolatedComponent "n"] "n"
    ⟨AntiPattern.IsolatedComponent "n", by simp, by simp [patternTouch]⟩
    (fun p hp _ => by simpa using hp)

end OptaFly
